import Mathlib

/-!
Glue records of the Porkbun Terraform provider.

A shallow embedding of

* `internal/client/glue.go` (the decode loop of `Client.GetGlueRecords`),
* `internal/provider/glue_record_resource.go` (`Create`, `Read`, `Update`, `ImportState`),
* `internal/mockbun/mockbun.go` (the `createGlue`, `updateGlue`, `deleteGlue`, `getGlue` handlers),

with the functions of the Go standard library they call (`strings.Split`, `net.ParseIP`,
`net.IP.To4`, `fmt.Sprintf` with `%s` verbs), followed by the properties proved about them.

Go strings are Lean strings, slices are lists (a nil slice and an empty slice are both `[]`),
and a Go map is an association list; the nil map that the server may hold under a domain is
kept apart from an empty map. The way from a client call to a handler of the test server
(`url.JoinPath`, the round trip of `c.do`, the routing of `http.ServeMux`) is not among the
sources: the handlers are functions of the path values they receive, and a statement that
goes through a client call says which handler body answers it.
-/

namespace Porkbun

/-! ## Go standard library: `strings.Split` -/

/-- The pieces of a character sequence between the occurrences of `sep`:
`strings.Split` cuts at every occurrence of the separator and always returns at least one
piece, the whole input when the separator does not occur. -/
def splitChars (sep : Char) : List Char → List (List Char)
  | [] => [[]]
  | c :: cs =>
    if c = sep then [] :: splitChars sep cs
    else
      match splitChars sep cs with
      | [] => [[c]]
      | p :: ps => (c :: p) :: ps

/-- Go `strings.Split(s, sep)` for a separator of one character, such as `":"`. -/
def Split (s : String) (sep : Char) : List String :=
  (splitChars sep s.data).map String.mk

/-! ## `internal/client/glue.go` -/

/-- A value of Go type `any` as `encoding/json` decodes it: `nil`, `bool`, `float64` (kept as
the text of the number, which nothing below inspects), `string`, `[]any` and
`map[string]any`. -/
inductive GoAny where
  | null : GoAny
  | bool (b : Bool) : GoAny
  | number (text : String) : GoAny
  | string (s : String) : GoAny
  | array (elems : List GoAny) : GoAny
  | object (fields : List (String × GoAny)) : GoAny

/-- Index expression `m[key]` on a `map[string]any`: the zero value `nil` for a missing key. -/
def mapIndex : List (String × GoAny) → String → GoAny
  | [], _ => GoAny.null
  | (k, v) :: rest, key => if k = key then v else mapIndex rest key

/-- Go `client.GlueRecord`. -/
structure GlueRecord where
  Domain : String
  Subdomain : String
  IPs : List String
  deriving DecidableEq, Repr

/-- The embedded `status` of every response: `{status, message}`. -/
structure status where
  Status : String
  Message : String
  deriving DecidableEq, Repr

/-- Modelled from the spec: `status.failed` is declared in `internal/client/client.go`, which
is not among the sources; "absence of SUCCESS is a failure signal". -/
def status.failed (s : status) : Bool :=
  s.Status != "SUCCESS"

/-- Go `getGlueRecordsResponse`: the status envelope and `Hosts [][]any`. -/
structure getGlueRecordsResponse where
  status : status
  Hosts : List (List GoAny)

/-- An `error` returned by a client method: the error of `c.do` (transport or decoding), or
the response status when it reports a failure. -/
inductive ClientError where
  | doError (msg : String) : ClientError
  | failure (s : status) : ClientError
  deriving DecidableEq, Repr

/-- The inner loop of `GetGlueRecords`:
`for _, ip := range arr { if ipStr, ok := ip.(string); ok { ips = append(ips, ipStr) } }`. -/
def appendStrings (ips : List String) (arr : List GoAny) : List String :=
  arr.foldl
    (fun acc ip =>
      match ip with
      | GoAny.string ipStr => acc ++ [ipStr]
      | _ => acc)
    ips

/-- Lines 116-130 of `glue.go`: `var ips []string`, then the strings of `ipsMap["v4"]` when
it is a `[]any`, then the strings of `ipsMap["v6"]` when it is a `[]any`. -/
def collectIPs (ipsMap : List (String × GoAny)) : List String :=
  let ips : List String := []
  let ips :=
    match mapIndex ipsMap "v4" with
    | GoAny.array v4 => appendStrings ips v4
    | _ => ips
  let ips :=
    match mapIndex ipsMap "v6" with
    | GoAny.array v6 => appendStrings ips v6
    | _ => ips
  ips

/-- One iteration of `for _, hostRaw := range response.Hosts`: the three `continue` guards,
then `records = append(records, GlueRecord{...})`. -/
def decodeStep (domain : String) (records : List GlueRecord) (hostRaw : List GoAny) :
    List GlueRecord :=
  if hostRaw.length ≠ 2 then records
  else
    match hostRaw[0]? with
    | some (GoAny.string hostName) =>
      match hostRaw[1]? with
      | some (GoAny.object ipsMap) =>
        records ++ [{ Domain := domain, Subdomain := hostName, IPs := collectIPs ipsMap }]
      | _ => records
    | _ => records

/-- The decode loop of `GetGlueRecords` (lines 100-137), started from `var records`. -/
def decodeHosts (domain : String) (hosts : List (List GoAny)) : List GlueRecord :=
  hosts.foldl (decodeStep domain) []

/-- Go `Client.GetGlueRecords`, given what `c.do` delivered for the request: an error, or the
decoded response. -/
def GetGlueRecords (domain : String) (doResult : Except String getGlueRecordsResponse) :
    Except ClientError (List GlueRecord) :=
  match doResult with
  | Except.error err => Except.error (ClientError.doError err)
  | Except.ok response =>
    if response.status.failed then Except.error (ClientError.failure response.status)
    else Except.ok (decodeHosts domain response.Hosts)

/-! ### The decode of the specification, to compare with the loop -/

/-- A host-list entry as the specification wants it: exactly two elements, a string and then
a key-value object. -/
def wellFormedEntry : List GoAny → Option (String × List (String × GoAny))
  | [GoAny.string hostName, GoAny.object obj] => some (hostName, obj)
  | _ => none

/-- The string elements of a JSON value, in order, when it is an array; nothing otherwise. -/
def stringElems : GoAny → List String
  | GoAny.array elems =>
    elems.filterMap
      (fun e =>
        match e with
        | GoAny.string s => some s
        | _ => none)
  | _ => []

/-- The record the specification asks for from a well-formed entry. -/
def specRecord (domain : String) (e : String × List (String × GoAny)) : GlueRecord :=
  { Domain := domain
    Subdomain := e.1
    IPs := stringElems (mapIndex e.2 "v4") ++ stringElems (mapIndex e.2 "v6") }

/-- The decode of the specification: one record per well-formed entry, the others skipped. -/
def specDecode (domain : String) (hosts : List (List GoAny)) : List GlueRecord :=
  hosts.filterMap (fun h => (wellFormedEntry h).map (specRecord domain))

/-- The addresses the specification reads under `key` in the address map: the value is found
with the library lookup `List.lookup`; when it is an array its string elements are taken in
order, and a missing key or a value that is not an array gives nothing. -/
def specAddresses (obj : List (String × GoAny)) (key : String) : List String :=
  match obj.lookup key with
  | some (GoAny.array elems) =>
    elems.filterMap
      (fun e =>
        match e with
        | GoAny.string s => some s
        | _ => none)
  | _ => []

/-! ## `internal/provider/glue_record_resource.go`

The calls into the plugin framework are taken at their documented effect: `Plan.Get` and
`State.Get` deliver the model without diagnostics, `State.Set` stores the model,
`State.SetAttribute` sets one attribute, `State.RemoveResource` makes the state null. -/

/-- Framework type `types.String`: null, unknown, or a known value. -/
inductive TFString where
  | null : TFString
  | unknown : TFString
  | value (s : String) : TFString
  deriving DecidableEq, Repr

/-- The method `ValueString`: the known value, `""` for null and unknown. -/
def TFString.ValueString : TFString → String
  | TFString.value s => s
  | _ => ""

/-- The constructor `types.StringValue`. -/
def StringValue (s : String) : TFString := TFString.value s

/-- Go `GlueRecordResourceModel`. -/
structure GlueRecordResourceModel where
  ID : TFString
  Domain : TFString
  Subdomain : TFString
  IPs : List TFString
  deriving DecidableEq, Repr

/-- Severity of a diagnostic. -/
inductive Severity where
  | error : Severity
  | warning : Severity
  deriving DecidableEq, Repr

/-- A diagnostic: severity, summary, and the detail kept as the format with its arguments
(the rendering of `%q` is not modelled; a detail that is a plain string has no arguments). -/
structure Diagnostic where
  severity : Severity
  summary : String
  detail : String
  detailArgs : List String
  deriving DecidableEq, Repr

/-- The method `Diagnostics.HasError`. -/
def HasError (ds : List Diagnostic) : Bool :=
  ds.any (fun d => d.severity = Severity.error)

/-- The method `Diagnostics.AddError(summary, detail)`. -/
def AddError (ds : List Diagnostic) (summary detail : String) (args : List String) :
    List Diagnostic :=
  ds ++ [{ severity := Severity.error, summary := summary, detail := detail, detailArgs := args }]

/-- The text `err.Error()` of a client error. -/
def ClientError.Error : ClientError → String
  | ClientError.doError msg => msg
  | ClientError.failure s => s.Message

/-- Framework type `tfsdk.State` of this resource: `none` is the null state (no resource). -/
abbrev State := Option GlueRecordResourceModel

/-- The response every lifecycle method fills in: its diagnostics and its state. -/
structure Response where
  Diagnostics : List Diagnostic
  State : State
  deriving DecidableEq, Repr

/-- The three string attributes of the schema, as `path.Root("id")`, `path.Root("domain")`,
`path.Root("subdomain")`. -/
inductive RootPath where
  | id : RootPath
  | domain : RootPath
  | subdomain : RootPath
  deriving DecidableEq, Repr

/-- A state with every attribute null. -/
def nullModel : GlueRecordResourceModel :=
  { ID := TFString.null, Domain := TFString.null, Subdomain := TFString.null, IPs := [] }

/-- The method `State.SetAttribute(ctx, path, value)` for a string attribute of the schema:
the attribute gets the value, the other attributes keep theirs (null in a null state). -/
def SetAttribute (st : State) (p : RootPath) (v : String) : State :=
  let m := st.getD nullModel
  match p with
  | RootPath.id => some { m with ID := StringValue v }
  | RootPath.domain => some { m with Domain := StringValue v }
  | RootPath.subdomain => some { m with Subdomain := StringValue v }

/-- The identifier `fmt.Sprintf("%s:%s", domain, subdomain)`. -/
def formatID (domain subdomain : String) : String :=
  domain ++ ":" ++ subdomain

/-- The host name `fmt.Sprintf("%s.%s", subdomain, domain)`. -/
def formatHost (subdomain domain : String) : String :=
  subdomain ++ "." ++ domain

/-- Go `GlueRecordResource.Create`: `data` is the plan read by `req.Plan.Get`, and
`createGlueRecord` is the client method called on the remote side. -/
def Create (createGlueRecord : String → String → List String → Option ClientError)
    (data : GlueRecordResourceModel) (resp : Response) : Response :=
  if HasError resp.Diagnostics then resp
  else
    let ips := data.IPs.map TFString.ValueString
    match createGlueRecord data.Domain.ValueString data.Subdomain.ValueString ips with
    | some err =>
      { resp with
        Diagnostics := AddError resp.Diagnostics "Unable to create glue record" err.Error [] }
    | none =>
      let data :=
        { data with ID := StringValue (formatID data.Domain.ValueString data.Subdomain.ValueString) }
      { resp with State := some data }

/-- The scan of `Read` (lines 120-138): the first record whose `Subdomain` is `expectedHost`
sets `found` and replaces `data.IPs`, then `break`. -/
def readScan (expectedHost : String) :
    List GlueRecord → GlueRecordResourceModel × Bool → GlueRecordResourceModel × Bool
  | [], acc => acc
  | rec :: rest, (data, found) =>
    if rec.Subdomain = expectedHost then
      ({ data with IPs := rec.IPs.map StringValue }, true)
    else readScan expectedHost rest (data, found)

/-- Go `GlueRecordResource.Read`: `data` is the state read by `req.State.Get`, and
`getGlueRecords` is the client method. -/
def Read (getGlueRecords : String → Except ClientError (List GlueRecord))
    (data : GlueRecordResourceModel) (resp : Response) : Response :=
  if HasError resp.Diagnostics then resp
  else
    match getGlueRecords data.Domain.ValueString with
    | Except.error err =>
      { resp with
        Diagnostics := AddError resp.Diagnostics "Unable to read glue records" err.Error [] }
    | Except.ok records =>
      let expectedHost := formatHost data.Subdomain.ValueString data.Domain.ValueString
      let (data, found) := readScan expectedHost records (data, false)
      if !found then { resp with State := none }
      else
        let data :=
          { data with
            ID := StringValue (formatID data.Domain.ValueString data.Subdomain.ValueString) }
        { resp with State := some data }

/-- Go `GlueRecordResource.Update`. -/
def Update (updateGlueRecord : String → String → List String → Option ClientError)
    (data : GlueRecordResourceModel) (resp : Response) : Response :=
  if HasError resp.Diagnostics then resp
  else
    let ips := data.IPs.map TFString.ValueString
    match updateGlueRecord data.Domain.ValueString data.Subdomain.ValueString ips with
    | some err =>
      { resp with
        Diagnostics := AddError resp.Diagnostics "Unable to update glue record" err.Error [] }
    | none =>
      let data :=
        { data with ID := StringValue (formatID data.Domain.ValueString data.Subdomain.ValueString) }
      { resp with State := some data }

/-- Go `GlueRecordResource.ImportState` on the identifier `req.ID`. -/
def ImportState (ID : String) (resp : Response) : Response :=
  let idParts := Split ID ':'
  if idParts.length ≠ 2 ∨ idParts[0]? = some "" ∨ idParts[1]? = some "" then
    { resp with
      Diagnostics :=
        AddError resp.Diagnostics "Unexpected Import Identifier"
          "Expected import identifier with format: domain:subdomain. Got: %q" [ID] }
  else
    let st := SetAttribute resp.State RootPath.domain (idParts[0]?.getD "")
    let st := SetAttribute st RootPath.subdomain (idParts[1]?.getD "")
    let st := SetAttribute st RootPath.id ID
    { resp with State := st }

/-- Go `Client.CreateGlueRecord`, `Client.UpdateGlueRecord` and `Client.DeleteGlueRecord`
after the request: the error of `c.do`, the status when it failed, `nil` otherwise (the three
methods differ in the URL and the payload only). -/
def statusResult (doResult : Except String status) : Option ClientError :=
  match doResult with
  | Except.error err => some (ClientError.doError err)
  | Except.ok response =>
    if response.failed then some (ClientError.failure response) else none

/-! ## Go standard library: `net.ParseIP` and `net.IP.To4`

`net.ParseIP` is `netip.ParseAddr` followed by the rejection of a zone and by `As16`. -/

/-- The value of a decimal digit `c >= '0' && c <= '9'`. -/
def decVal (c : Char) : Option Nat :=
  if '0' ≤ c ∧ c ≤ '9' then some (c.toNat - '0'.toNat) else none

/-- The loop of `parseIPv4Fields` over the rest of the input: `prev` is the character before
the current one (none at index 0), `val`, `pos`, `digLen` and `fields` are the variables of
the Go function. -/
def parseIPv4Loop :
    List Char → Option Char → Nat → Nat → Nat → List Nat → Option (List Nat)
  | [], _, val, pos, _, fields =>
    if pos < 3 then none else some (fields.set 3 val)
  | c :: rest, prev, val, pos, digLen, fields =>
    match decVal c with
    | some d =>
      if digLen = 1 ∧ val = 0 then none
      else
        let val := val * 10 + d
        if val > 255 then none
        else parseIPv4Loop rest (some c) val pos (digLen + 1) fields
    | none =>
      if c = '.' then
        if prev = none ∨ rest = [] ∨ prev = some '.' then none
        else if pos = 3 then none
        else parseIPv4Loop rest (some c) 0 (pos + 1) 0 (fields.set pos val)
      else none

/-- Go `parseIPv4Fields`: the four octets of a dotted-decimal literal, or failure. -/
def parseIPv4Fields (s : List Char) : Option (List Nat) :=
  parseIPv4Loop s none 0 0 0 [0, 0, 0, 0]

/-- The value of a hexadecimal digit. -/
def hexVal (c : Char) : Option Nat :=
  if '0' ≤ c ∧ c ≤ '9' then some (c.toNat - '0'.toNat)
  else if 'a' ≤ c ∧ c ≤ 'f' then some (c.toNat - 'a'.toNat + 10)
  else if 'A' ≤ c ∧ c ≤ 'F' then some (c.toNat - 'A'.toNat + 10)
  else none

/-- The inner loop of `parseIPv6` reading one group of hexadecimal digits: the number `off`
of digits read, their value `acc` and the input from index `off` on; failure for a fifth
digit or a value above `0xffff`. -/
def hexLoop : List Char → Nat → Nat → Option (Nat × Nat × List Char)
  | [], off, acc => some (off, acc, [])
  | c :: cs, off, acc =>
    match hexVal c with
    | none => some (off, acc, c :: cs)
    | some d =>
      let acc := acc * 16 + d
      if off > 3 then none
      else if acc > 65535 then none
      else hexLoop cs (off + 1) acc

/-- The main loop `for i < 16` of `parseIPv6`, on the index `i`, the rest `s` of the input,
the position of the ellipsis (none for `-1`) and the sixteen bytes `ip`; it returns these
four at the exit of the loop. Every round adds 2 to `i`, so 8 rounds are enough; the first
argument counts the rounds left. -/
def parseIPv6Loop :
    Nat → Nat → List Char → Option Nat → List Nat →
      Option (Nat × List Char × Option Nat × List Nat)
  | 0, i, s, ellipsis, ip => some (i, s, ellipsis, ip)
  | rounds + 1, i, s, ellipsis, ip =>
    if ¬ i < 16 then some (i, s, ellipsis, ip)
    else
      match hexLoop s 0 0 with
      | none => none
      | some (off, acc, rest) =>
        if off = 0 then none
        else if rest.head? = some '.' then
          if ellipsis = none ∧ i ≠ 12 then none
          else if i + 4 > 16 then none
          else
            match parseIPv4Fields s with
            | none => none
            | some f =>
              some (i + 4, [], ellipsis,
                (((ip.set i (f.getD 0 0)).set (i + 1) (f.getD 1 0)).set (i + 2)
                  (f.getD 2 0)).set (i + 3) (f.getD 3 0))
        else
          let ip := (ip.set i (acc / 256)).set (i + 1) (acc % 256)
          let i := i + 2
          match rest with
          | [] => some (i, [], ellipsis, ip)
          | c :: rest1 =>
            if c ≠ ':' then none
            else
              match rest1 with
              | [] => none
              | c1 :: rest2 =>
                if c1 = ':' then
                  if ellipsis.isSome then none
                  else
                    match rest2 with
                    | [] => some (i, [], some i, ip)
                    | _ :: _ => parseIPv6Loop rounds i rest2 (some i) ip
                else parseIPv6Loop rounds i rest1 ellipsis ip

/-- Go `parseIPv6`: the sixteen bytes and the zone. -/
def parseIPv6 (input : List Char) : Option (List Nat × List Char) :=
  let split : Option (List Char × List Char) :=
    if '%' ∈ input then
      let zone := (input.dropWhile (fun c => c ≠ '%')).drop 1
      if zone = [] then none else some (input.takeWhile (fun c => c ≠ '%'), zone)
    else some (input, [])
  match split with
  | none => none
  | some (s, zone) =>
    let ip := List.replicate 16 0
    let start : Option Nat × List Char :=
      match s with
      | ':' :: ':' :: rest => (some 0, rest)
      | _ => (none, s)
    if start.1.isSome ∧ start.2 = [] then some (ip, zone)
    else
      match parseIPv6Loop 8 0 start.2 start.1 ip with
      | none => none
      | some (i, s, ellipsis, ip) =>
        if s ≠ [] then none
        else if i < 16 then
          match ellipsis with
          | none => none
          | some e =>
            some (ip.take e ++ List.replicate (16 - i) 0 ++ (ip.drop e).take (i - e), zone)
        else if ellipsis.isSome then none
        else some (ip, zone)

/-- Go `netip.Addr` as far as `ParseAddr` builds it: four octets, or sixteen bytes and a
zone. -/
inductive Addr where
  | v4 (fields : List Nat) : Addr
  | v6 (bytes : List Nat) (zone : List Char) : Addr
  deriving DecidableEq, Repr

/-- Go `netip.ParseAddr`: the first of `.`, `:` and `%` in the input selects the parser. -/
def ParseAddr (s : List Char) : Option Addr :=
  match s.find? (fun c => c = '.' ∨ c = ':' ∨ c = '%') with
  | some '.' => (parseIPv4Fields s).map Addr.v4
  | some ':' => (parseIPv6 s).map (fun r => Addr.v6 r.1 r.2)
  | _ => none

/-- The method `Addr.Zone`. -/
def Addr.Zone : Addr → List Char
  | Addr.v4 _ => []
  | Addr.v6 _ zone => zone

/-- The method `Addr.As16`: an IPv4 address becomes the IPv4-mapped `::ffff:a.b.c.d`. -/
def Addr.As16 : Addr → List Nat
  | Addr.v4 fields => [0, 0, 0, 0, 0, 0, 0, 0, 0, 0, 255, 255] ++ fields
  | Addr.v6 bytes _ => bytes

/-- Go `net.ParseIP`: the sixteen bytes of the address, `[]` (the nil `IP`) when the text is
not a valid IPv4 or IPv6 literal or has a zone. -/
def ParseIP (s : String) : List Nat :=
  match ParseAddr s.data with
  | none => []
  | some ip => if ip.Zone ≠ [] then [] else ip.As16

/-- Go `net.IP.To4`: the four bytes of an IPv4 address, also in its sixteen-byte IPv4-mapped
form; `[]` (nil) for anything else. -/
def To4 (ip : List Nat) : List Nat :=
  if ip.length = 4 then ip
  else if ip.length = 16 ∧ (ip.take 10).all (fun b => b = 0) ∧ ip.getD 10 0 = 255 ∧
      ip.getD 11 0 = 255 then (ip.drop 12).take 4
  else []

/-- The test of the `getGlue` handler: `net.ParseIP(ip).To4() != nil`. -/
def isIPv4 (ip : String) : Bool :=
  To4 (ParseIP ip) ≠ []

/-- The dotted-decimal IPv4 literal parse of the specification: `parseIPv4Fields` succeeds on
the whole text. -/
def dottedDecimalIPv4 (ip : String) : Bool :=
  (parseIPv4Fields ip.data).isSome

/-- The text is an IPv6 literal, without zone, of an IPv4-mapped address `::ffff:a.b.c.d`:
the sixteen bytes begin with ten zero bytes followed by `ff ff`. -/
def ipv4MappedLiteral (ip : String) : Bool :=
  match ParseAddr ip.data with
  | some (Addr.v6 bytes zone) =>
    decide (zone = [] ∧ bytes.length = 16 ∧
      bytes.take 12 = [0, 0, 0, 0, 0, 0, 0, 0, 0, 0, 255, 255])
  | _ => false

/-! ## `internal/mockbun/mockbun.go` -/

/-- A Go `map[string]V`: its entries. A Go map has one entry for a key; every operation
below works on the first entry of the key, so no condition on the list is needed. -/
abbrev GoMap (V : Type) := List (String × V)

/-- The lookup `v, ok := m[key]`. -/
def GoMap.get? {V : Type} : GoMap V → String → Option V
  | [], _ => none
  | (k, v) :: rest, key => if k = key then some v else GoMap.get? rest key

/-- The builtin `delete(m, key)`. -/
def GoMap.delete {V : Type} (m : GoMap V) (key : String) : GoMap V :=
  m.filter (fun e => e.1 ≠ key)

/-- The assignment `m[key] = v`: the entry of `key`, if any, is replaced. -/
def GoMap.set {V : Type} (m : GoMap V) (key : String) (v : V) : GoMap V :=
  (key, v) :: GoMap.delete m key

/-- A change made through the reference `m[key]` to the value stored under `key` (an inner
map, changed in place): the entry the lookup finds gets the new value, the other entries are
untouched. -/
def GoMap.modify {V : Type} : GoMap V → String → (V → V) → GoMap V
  | [], _, _ => []
  | (k, v) :: rest, key, f =>
    if k = key then (k, f v) :: rest else (k, v) :: GoMap.modify rest key f

/-- Modelled from the spec: `porkbun.DNSRecord` is declared in a file of `internal/client`
that is not among the sources; "DNSRecord: { id, name, type, content }" (`Kind` is the field
`Type`). -/
structure DNSRecord where
  ID : String
  Name : String
  Kind : String
  Content : String
  deriving DecidableEq, Repr

/-- The maps of Go `mockbun.Server` (the HTTP server and its mux carry no data). Under a
domain, `glueRecords` holds a `map[string][]string`: `none` is the nil map, which
`SetGlueRecords(domain, nil)` stores, and `some entries` a map made by `make` or by a
literal. Each domain holds its own map value. -/
structure Server where
  nameservers : GoMap (List String)
  dnsRecords : GoMap (List DNSRecord)
  glueRecords : GoMap (Option (GoMap (List String)))
  deriving DecidableEq, Repr

/-- The body every glue handler writes on success: `{"status": "SUCCESS"}`. -/
def successStatus : status := { Status := "SUCCESS", Message := "" }

/-- The guard
`if _, ok := m.glueRecords[domain]; !ok { m.glueRecords[domain] = make(map[string][]string) }`:
it looks at the presence of the key only. -/
def ensureDomain (m : Server) (domain : String) : Server :=
  match m.glueRecords.get? domain with
  | some _ => m
  | none => { m with glueRecords := m.glueRecords.set domain (some []) }

/-- The assignment `m.glueRecords[domain][subdomain] = IPs`: it writes into the map held
under `domain`, and panics (`none`) when that map is nil. -/
def assignGlue (m : Server) (domain subdomain : String) (IPs : List String) : Option Server :=
  match m.glueRecords.get? domain with
  | some (some _) =>
    some
      { m with
        glueRecords :=
          m.glueRecords.modify domain
            (fun sub => sub.map (fun entries => GoMap.set entries subdomain IPs)) }
  | some none => none
  | none => none

/-- The handler of `/domain/createGlue/{domain}/{subdomain}`: `IPs` is the `ips` field of the
decoded body. It returns the new server state and the status written; the status is `none`
when the handler panics, in which case it writes nothing and the state is as the guard left
it. -/
def createGlue (m : Server) (domain subdomain : String) (IPs : List String) :
    Server × Option status :=
  let m := ensureDomain m domain
  match assignGlue m domain subdomain IPs with
  | some m1 => (m1, some successStatus)
  | none => (m, none)

/-- The handler of `/domain/updateGlue/{domain}/{subdomain}`. -/
def updateGlue (m : Server) (domain subdomain : String) (IPs : List String) :
    Server × Option status :=
  let m := ensureDomain m domain
  match assignGlue m domain subdomain IPs with
  | some m1 => (m1, some successStatus)
  | none => (m, none)

/-- The handler of `/domain/deleteGlue/{domain}/{subdomain}`: `delete` on a nil map does
nothing. -/
def deleteGlue (m : Server) (domain subdomain : String) : Server × status :=
  let m :=
    match m.glueRecords.get? domain with
    | some _ =>
      { m with
        glueRecords :=
          m.glueRecords.modify domain
            (fun sub => sub.map (fun entries => GoMap.delete entries subdomain)) }
    | none => m
  (m, successStatus)

/-- The loop `for _, ip := range ips` of the `getGlue` handler with the test `classify` for
the branch: the lists `v4` and `v6`. -/
def splitIPs (classify : String → Bool) (ips : List String) : List String × List String :=
  ips.foldl
    (fun acc ip => if classify ip then (acc.1 ++ [ip], acc.2) else (acc.1, acc.2 ++ [ip]))
    ([], [])

/-- The entry `[]interface{}{fullHost, hostObj}` of the `getGlue` handler as the client
decodes its JSON: the host name, and the object with the arrays `v4` and `v6`. -/
def hostEntry (classify : String → Bool) (domain sub : String) (ips : List String) :
    List GoAny :=
  let split := splitIPs classify ips
  [GoAny.string (formatHost sub domain),
    GoAny.object
      [("v4", GoAny.array (split.1.map GoAny.string)),
        ("v6", GoAny.array (split.2.map GoAny.string))]]

/-- The order in which `range` visits the entries of a map: Go leaves it unspecified, so it
is a parameter of the handler, and any rearrangement of the entries is allowed. -/
abbrev RangeOrder := GoMap (List String) → GoMap (List String)

/-- The visit goes through every entry exactly once. -/
def RangeOrder.Valid (order : RangeOrder) : Prop :=
  ∀ m, (order m).Perm m

/-- The handler of `/domain/getGlue/{domain}`, run with the path value `domain`: the
response as the client decodes it. A `range` over a nil map visits nothing. -/
def getGlue (order : RangeOrder) (m : Server) (domain : String) : getGlueRecordsResponse :=
  let hosts : List (List GoAny) :=
    match m.glueRecords.get? domain with
    | some (some records) =>
      (order records).foldl
        (fun hosts e => hosts ++ [hostEntry isIPv4 domain e.1 e.2])
        []
    | some none => []
    | none => []
  { status := successStatus, Hosts := hosts }

/-! ## Shapes of the specification -/

/-- The identifier `s` is `d`, a colon, `sub`, with `d` and `sub` non-empty and free of
colons. -/
def ImportIDShape (s d sub : String) : Prop :=
  d ≠ "" ∧ sub ≠ "" ∧ ':' ∉ d.data ∧ ':' ∉ sub.data ∧ s = d ++ ":" ++ sub

instance (s d sub : String) : Decidable (ImportIDShape s d sub) := by
  unfold ImportIDShape
  infer_instance

/-! ## Lemmas on `strings.Split` -/

theorem splitChars_ne_nil (sep : Char) (l : List Char) : splitChars sep l ≠ [] := by
  cases l with
  | nil => simp [splitChars]
  | cons c cs =>
    unfold splitChars
    split
    · simp
    · split <;> simp

theorem splitChars_of_not_mem (sep : Char) :
    ∀ l : List Char, sep ∉ l → splitChars sep l = [l] := by
  intro l
  induction l with
  | nil => intro _; rfl
  | cons c cs ih =>
    intro h
    have hc : c ≠ sep := fun e => h (by simp [e])
    have hcs : sep ∉ cs := fun e => h (by simp [e])
    simp [splitChars, hc, ih hcs]

theorem splitChars_append_sep (sep : Char) (b : List Char) :
    ∀ a : List Char, sep ∉ a → splitChars sep (a ++ sep :: b) = a :: splitChars sep b := by
  intro a
  induction a with
  | nil => intro _; simp [splitChars]
  | cons c cs ih =>
    intro h
    have hc : c ≠ sep := fun e => h (by simp [e])
    have hcs : sep ∉ cs := fun e => h (by simp [e])
    simp [splitChars, hc, ih hcs]

/-- The first piece has no separator, and the input is either that piece alone or that
piece, a separator, and the text the other pieces come from. -/
theorem splitChars_cases (sep : Char) :
    ∀ l : List Char, ∃ a rest, splitChars sep l = a :: rest ∧ sep ∉ a ∧
      ((rest = [] ∧ l = a) ∨ ∃ l1, l = a ++ sep :: l1 ∧ rest = splitChars sep l1) := by
  intro l
  induction l with
  | nil => exact ⟨[], [], rfl, by simp, Or.inl ⟨rfl, rfl⟩⟩
  | cons c cs ih =>
    by_cases hc : c = sep
    · refine ⟨[], splitChars sep cs, by simp [splitChars, hc], by simp, Or.inr ⟨cs, by simp [hc], rfl⟩⟩
    · obtain ⟨a, rest, h1, h2, h3⟩ := ih
      refine ⟨c :: a, rest, by simp [splitChars, hc, h1], ?_, ?_⟩
      · intro hm
        rcases List.mem_cons.1 hm with e | e
        · exact hc e.symm
        · exact h2 e
      · rcases h3 with ⟨e1, e2⟩ | ⟨l1, e1, e2⟩
        · exact Or.inl ⟨e1, by simp [e2]⟩
        · exact Or.inr ⟨l1, by simp [e1], e2⟩

theorem splitChars_eq_pair (sep : Char) (l a b : List Char) (h : splitChars sep l = [a, b]) :
    l = a ++ sep :: b ∧ sep ∉ a ∧ sep ∉ b := by
  obtain ⟨a1, rest, h1, h2, h3⟩ := splitChars_cases sep l
  rw [h1] at h
  obtain ⟨rfl, rfl⟩ : a1 = a ∧ rest = [b] := by simpa using h
  rcases h3 with ⟨e1, _⟩ | ⟨l1, e1, e2⟩
  · simp at e1
  · obtain ⟨b1, rest1, k1, k2, k3⟩ := splitChars_cases sep l1
    rw [k1] at e2
    obtain ⟨rfl, rfl⟩ : b = b1 ∧ [] = rest1 := by simpa using e2
    rcases k3 with ⟨_, e3⟩ | ⟨l2, _, e4⟩
    · exact ⟨by rw [e1, e3], h2, k2⟩
    · exact absurd e4.symm (splitChars_ne_nil sep l2)

theorem string_ne_empty_iff (s : String) : s ≠ "" ↔ s.data ≠ [] := by
  constructor
  · intro h e
    exact h (String.ext (by simpa using e))
  · intro h e
    exact h (by rw [e])

/-- The identifiers `ImportState` accepts, in terms of `Split`. -/
theorem split_pair_iff (s : String) :
    (∃ d sub : String, d ≠ "" ∧ sub ≠ "" ∧ ':' ∉ d.data ∧ ':' ∉ sub.data ∧
        s = d ++ ":" ++ sub) ↔
      ∃ a b : String, Split s ':' = [a, b] ∧ a ≠ "" ∧ b ≠ "" := by
  constructor
  · rintro ⟨d, sub, hd, hs, hd1, hs1, rfl⟩
    refine ⟨d, sub, ?_, hd, hs⟩
    have e : (d ++ ":" ++ sub).data = d.data ++ ':' :: sub.data := by
      simp [String.data_append]
    simp [Split, e, splitChars_append_sep ':' sub.data d.data hd1,
      splitChars_of_not_mem ':' sub.data hs1]
  · rintro ⟨a, b, h, ha, hb⟩
    have h1 : splitChars ':' s.data = [a.data, b.data] := by
      have := congrArg (List.map String.data) h
      simpa [Split, Function.comp_def] using this
    obtain ⟨e, na, nb⟩ := splitChars_eq_pair ':' s.data a.data b.data h1
    exact ⟨a, b, ha, hb, na, nb, String.ext (by simp [String.data_append, e])⟩

theorem importState_of_pair (s a b : String) (resp : Response)
    (h : Split s ':' = [a, b]) (ha : a ≠ "") (hb : b ≠ "") :
    ImportState s resp =
      { Diagnostics := resp.Diagnostics
        State := some { resp.State.getD nullModel with
          ID := TFString.value s, Domain := TFString.value a, Subdomain := TFString.value b } } := by
  have ha1 : ¬ (a = "") := ha
  have hb1 : ¬ (b = "") := hb
  simp [ImportState, h, ha1, hb1, SetAttribute, StringValue]

theorem importState_of_not_pair (s : String) (resp : Response)
    (h : ¬ ∃ a b : String, Split s ':' = [a, b] ∧ a ≠ "" ∧ b ≠ "") :
    ImportState s resp =
      { Diagnostics :=
          AddError resp.Diagnostics "Unexpected Import Identifier"
            "Expected import identifier with format: domain:subdomain. Got: %q" [s]
        State := resp.State } := by
  unfold ImportState
  simp only []
  split
  · rfl
  · rename_i hc
    exfalso
    apply h
    push_neg at hc
    obtain ⟨h1, h2, h3⟩ := hc
    match hs : Split s ':', h1 with
    | [a, b], _ =>
      rw [hs] at h2 h3
      exact ⟨a, b, rfl, by simpa using h2, by simpa using h3⟩

/-! ## Lemmas on the decode loop -/

theorem appendStrings_eq (arr : List GoAny) :
    ∀ ips : List String, appendStrings ips arr = ips ++ stringElems (GoAny.array arr) := by
  induction arr with
  | nil => intro ips; simp [appendStrings, stringElems]
  | cons x xs ih =>
    intro ips
    have step : ∀ acc : List String, appendStrings acc (x :: xs) =
        appendStrings (match x with
          | GoAny.string ipStr => acc ++ [ipStr]
          | _ => acc) xs := fun _ => rfl
    rw [step, ih]
    cases x <;> simp [stringElems]

theorem collectIPs_eq (ipsMap : List (String × GoAny)) :
    collectIPs ipsMap = stringElems (mapIndex ipsMap "v4") ++ stringElems (mapIndex ipsMap "v6") := by
  unfold collectIPs
  cases h4 : mapIndex ipsMap "v4" <;> cases h6 : mapIndex ipsMap "v6" <;>
    simp [appendStrings_eq, stringElems]

theorem decodeStep_eq (domain : String) (records : List GlueRecord) (hostRaw : List GoAny) :
    decodeStep domain records hostRaw =
      records ++ ((wellFormedEntry hostRaw).map (specRecord domain)).toList := by
  match hostRaw with
  | [] => simp [decodeStep, wellFormedEntry]
  | [x] => simp [decodeStep, wellFormedEntry]
  | x :: y :: z :: rest => simp [decodeStep, wellFormedEntry]
  | [x, y] =>
    cases x <;> cases y <;> simp [decodeStep, wellFormedEntry, specRecord, collectIPs_eq]

theorem foldl_decodeStep (domain : String) (hosts : List (List GoAny)) :
    ∀ records : List GlueRecord,
      hosts.foldl (decodeStep domain) records = records ++ specDecode domain hosts := by
  induction hosts with
  | nil => intro records; simp [specDecode]
  | cons h hs ih =>
    intro records
    rw [List.foldl_cons, ih, decodeStep_eq]
    cases hw : wellFormedEntry h <;> simp [specDecode, hw]

theorem decodeHosts_eq (domain : String) (hosts : List (List GoAny)) :
    decodeHosts domain hosts = specDecode domain hosts := by
  simp [decodeHosts, foldl_decodeStep]

theorem decodeHosts_append (domain : String) (a b : List (List GoAny)) :
    decodeHosts domain (a ++ b) = decodeHosts domain a ++ decodeHosts domain b := by
  simp [decodeHosts_eq, specDecode]

/-! ## Lemmas on `Read` -/

theorem readScan_eq (expectedHost : String) (data : GlueRecordResourceModel) :
    ∀ records : List GlueRecord,
      readScan expectedHost records (data, false) =
        match records.find? (fun r => r.Subdomain = expectedHost) with
        | some r => ({ data with IPs := r.IPs.map StringValue }, true)
        | none => (data, false) := by
  intro records
  induction records with
  | nil => rfl
  | cons r rs ih =>
    by_cases h : r.Subdomain = expectedHost
    · simp [readScan, h]
    · simp [readScan, h, ih]

theorem read_found (get : String → Except ClientError (List GlueRecord))
    (data : GlueRecordResourceModel) (resp : Response) (records : List GlueRecord)
    (r : GlueRecord) (hresp : HasError resp.Diagnostics = false)
    (hget : get data.Domain.ValueString = Except.ok records)
    (hfind : records.find?
      (fun r => r.Subdomain = data.Subdomain.ValueString ++ "." ++ data.Domain.ValueString) =
        some r) :
    Read get data resp =
      { Diagnostics := resp.Diagnostics
        State := some
          { ID := TFString.value (data.Domain.ValueString ++ ":" ++ data.Subdomain.ValueString)
            Domain := data.Domain
            Subdomain := data.Subdomain
            IPs := r.IPs.map TFString.value } } := by
  have hs := readScan_eq (formatHost data.Subdomain.ValueString data.Domain.ValueString) data
    records
  simp only [formatHost] at hs
  rw [hfind] at hs
  simp [Read, hresp, hget, formatHost, formatID, hs, StringValue]

theorem read_not_found (get : String → Except ClientError (List GlueRecord))
    (data : GlueRecordResourceModel) (resp : Response) (records : List GlueRecord)
    (hresp : HasError resp.Diagnostics = false)
    (hget : get data.Domain.ValueString = Except.ok records)
    (hfind : records.find?
      (fun r => r.Subdomain = data.Subdomain.ValueString ++ "." ++ data.Domain.ValueString) =
        none) :
    Read get data resp = { Diagnostics := resp.Diagnostics, State := none } := by
  have hs := readScan_eq (formatHost data.Subdomain.ValueString data.Domain.ValueString) data
    records
  simp only [formatHost] at hs
  rw [hfind] at hs
  simp [Read, hresp, hget, formatHost, hs]

/-! ## Lemmas on the test server -/

theorem GoMap.get?_set_self {V : Type} (m : GoMap V) (k : String) (v : V) :
    GoMap.get? (GoMap.set m k v) k = some v := by
  simp [GoMap.set, GoMap.get?]

theorem GoMap.get?_modify_self {V : Type} (k : String) (f : V → V) :
    ∀ m : GoMap V, GoMap.get? (GoMap.modify m k f) k = (GoMap.get? m k).map f := by
  intro m
  induction m with
  | nil => rfl
  | cons e rest ih =>
    obtain ⟨k1, v1⟩ := e
    by_cases h : k1 = k
    · simp [GoMap.modify, GoMap.get?, h]
    · simp [GoMap.modify, GoMap.get?, h, ih]

theorem GoMap.modify_modify {V : Type} (k : String) (f g : V → V) :
    ∀ m : GoMap V, GoMap.modify (GoMap.modify m k f) k g = GoMap.modify m k (g ∘ f) := by
  intro m
  induction m with
  | nil => rfl
  | cons e rest ih =>
    obtain ⟨k1, v1⟩ := e
    by_cases h : k1 = k
    · simp [GoMap.modify, h]
    · simp [GoMap.modify, h, ih]

theorem GoMap.modify_eq_self {V : Type} (k : String) (f : V → V) :
    ∀ m : GoMap V, (∀ v, GoMap.get? m k = some v → f v = v) → GoMap.modify m k f = m := by
  intro m
  induction m with
  | nil => intro _; rfl
  | cons e rest ih =>
    obtain ⟨k1, v1⟩ := e
    intro hf
    by_cases h : k1 = k
    · have := hf v1 (by simp [GoMap.get?, h])
      simp [GoMap.modify, h, this]
    · have hr : ∀ v, GoMap.get? rest k = some v → f v = v := by
        intro v hv
        exact hf v (by simpa [GoMap.get?, h] using hv)
      simp [GoMap.modify, h, ih hr]

theorem GoMap.get?_eq_none {V : Type} (k : String) :
    ∀ m : GoMap V, GoMap.get? m k = none ↔ ∀ e ∈ m, e.1 ≠ k := by
  intro m
  induction m with
  | nil => simp [GoMap.get?]
  | cons e rest ih =>
    obtain ⟨k1, v1⟩ := e
    by_cases h : k1 = k
    · simp [GoMap.get?, h]
    · simp [GoMap.get?, h, ih]

theorem GoMap.delete_eq_self {V : Type} (k : String) (m : GoMap V)
    (h : GoMap.get? m k = none) : GoMap.delete m k = m := by
  rw [GoMap.get?_eq_none] at h
  unfold GoMap.delete
  rw [List.filter_eq_self]
  intro e he
  simpa using h e he

theorem GoMap.set_set {V : Type} (m : GoMap V) (k : String) (v w : V) :
    GoMap.set (GoMap.set m k v) k w = GoMap.set m k w := by
  simp [GoMap.set, GoMap.delete, List.filter_filter]

theorem GoMap.mem_delete {V : Type} (m : GoMap V) (k : String) (e : String × V) :
    e ∈ GoMap.delete m k ↔ e ∈ m ∧ e.1 ≠ k := by
  simp [GoMap.delete]

theorem splitIPs_eq (classify : String → Bool) (ips : List String) :
    splitIPs classify ips = (ips.filter classify, ips.filter (fun ip => !classify ip)) := by
  have gen : ∀ (l : List String) (acc : List String × List String),
      l.foldl (fun acc ip =>
          if classify ip then (acc.1 ++ [ip], acc.2) else (acc.1, acc.2 ++ [ip])) acc =
        (acc.1 ++ l.filter classify, acc.2 ++ l.filter (fun ip => !classify ip)) := by
    intro l
    induction l with
    | nil => intro acc; simp
    | cons x xs ih =>
      intro acc
      rw [List.foldl_cons, ih]
      by_cases hx : classify x <;> simp [hx]
  simpa [splitIPs] using gen ips ([], [])

theorem stringElems_map_string (l : List String) :
    stringElems (GoAny.array (l.map GoAny.string)) = l := by
  induction l with
  | nil => rfl
  | cons x xs ih =>
    simp only [stringElems] at ih
    simp [stringElems, ih]

/-- The record the client decodes from an entry the `getGlue` handler writes. -/
theorem specRecord_hostEntry (classify : String → Bool) (domain sub : String)
    (ips : List String) :
    wellFormedEntry (hostEntry classify domain sub ips) =
        some (formatHost sub domain,
          [("v4", GoAny.array ((splitIPs classify ips).1.map GoAny.string)),
            ("v6", GoAny.array ((splitIPs classify ips).2.map GoAny.string))]) ∧
      (wellFormedEntry (hostEntry classify domain sub ips)).map (specRecord domain) =
        some { Domain := domain, Subdomain := formatHost sub domain,
               IPs := ips.filter classify ++ ips.filter (fun ip => !classify ip) } := by
  constructor
  · rfl
  · simp [hostEntry, wellFormedEntry, specRecord, mapIndex, stringElems_map_string, splitIPs_eq]

theorem formatHost_inj (a b d : String) : formatHost a d = formatHost b d ↔ a = b := by
  constructor
  · intro h
    have h1 := congrArg String.data h
    simp only [formatHost, String.data_append] at h1
    rw [List.append_assoc, List.append_assoc, List.append_left_inj] at h1
    exact String.ext h1
  · intro h
    rw [h]

theorem find?_unique {α : Type} (p : α → Bool) (x : α) :
    ∀ l : List α, x ∈ l → p x = true → (∀ y ∈ l, p y = true → y = x) → l.find? p = some x := by
  intro l hx hp hu
  cases hf : l.find? p with
  | none =>
    rw [List.find?_eq_none] at hf
    exact absurd hp (hf x hx)
  | some y =>
    have h1 := List.mem_of_find?_eq_some hf
    have h2 := List.find?_some hf
    rw [hu y h1 h2]

/-- The record `Read` finds on the test server for `(d, s)` when the domain's map is
`GoMap.set inner s ips`. -/
theorem find?_records_set (order : RangeOrder) (horder : order.Valid)
    (inner : GoMap (List String)) (d s : String) (ips : List String) :
    ((order (GoMap.set inner s ips)).map (fun e =>
        ({ Domain := d, Subdomain := formatHost e.1 d,
           IPs := e.2.filter isIPv4 ++ e.2.filter (fun ip => !isIPv4 ip) } : GlueRecord))).find?
      (fun r => r.Subdomain = s ++ "." ++ d) =
      some { Domain := d, Subdomain := formatHost s d,
             IPs := ips.filter isIPv4 ++ ips.filter (fun ip => !isIPv4 ip) } := by
  apply find?_unique
  · rw [List.mem_map]
    refine ⟨(s, ips), ?_, rfl⟩
    rw [(horder _).mem_iff]
    simp [GoMap.set]
  · simp [formatHost]
  · intro y hy hp
    rw [List.mem_map] at hy
    obtain ⟨e, he, rfl⟩ := hy
    rw [(horder _).mem_iff] at he
    have hk : e.1 = s := by
      have : formatHost e.1 d = formatHost s d := by simpa [formatHost] using hp
      exact (formatHost_inj _ _ _).1 this
    rcases List.mem_cons.1 he with h | h
    · rw [h]
    · rw [GoMap.mem_delete] at h
      exact absurd hk h.2

/-- No record of the test server is named `s.d` when the domain's map has no entry `s`. -/
theorem find?_records_delete (order : RangeOrder) (horder : order.Valid)
    (inner : GoMap (List String)) (d s : String) :
    ((order (GoMap.delete inner s)).map (fun e =>
        ({ Domain := d, Subdomain := formatHost e.1 d,
           IPs := e.2.filter isIPv4 ++ e.2.filter (fun ip => !isIPv4 ip) } : GlueRecord))).find?
      (fun r => r.Subdomain = s ++ "." ++ d) = none := by
  rw [List.find?_eq_none]
  intro y hy hp
  rw [List.mem_map] at hy
  obtain ⟨e, he, rfl⟩ := hy
  rw [(horder _).mem_iff, GoMap.mem_delete] at he
  have : formatHost e.1 d = formatHost s d := by simpa [formatHost] using hp
  exact he.2 ((formatHost_inj _ _ _).1 this)

/-! ## Lemmas on `net.ParseIP` -/

theorem decVal_not_special (c : Char) (d : Nat) (h : decVal c = some d) :
    c ≠ '.' ∧ c ≠ ':' ∧ c ≠ '%' := by
  refine ⟨?_, ?_, ?_⟩
  · rintro rfl
    have e : decVal '.' = none := by decide
    rw [e] at h
    exact absurd h (by simp)
  · rintro rfl
    have e : decVal ':' = none := by decide
    rw [e] at h
    exact absurd h (by simp)
  · rintro rfl
    have e : decVal '%' = none := by decide
    rw [e] at h
    exact absurd h (by simp)

theorem parseIPv4Loop_some :
    ∀ (s : List Char) (prev : Option Char) (val pos digLen : Nat) (fields r : List Nat),
      parseIPv4Loop s prev val pos digLen fields = some r →
        (∀ c ∈ s, decVal c ≠ none ∨ c = '.') ∧ (pos < 3 → '.' ∈ s) ∧
          r.length = fields.length := by
  intro s
  induction s with
  | nil =>
    intro prev val pos digLen fields r h
    simp only [parseIPv4Loop] at h
    split at h
    · exact absurd h (by simp)
    · rename_i hp
      refine ⟨by simp, fun h3 => absurd h3 hp, ?_⟩
      have := Option.some.inj h
      rw [← this]
      simp
  | cons c rest ih =>
    intro prev val pos digLen fields r h
    simp only [parseIPv4Loop] at h
    cases hd : decVal c with
    | some d =>
      simp only [hd] at h
      split at h
      · exact absurd h (by simp)
      · split at h
        · exact absurd h (by simp)
        · obtain ⟨h1, h2, h3⟩ := ih _ _ _ _ _ _ h
          refine ⟨?_, fun hp => List.mem_cons_of_mem _ (h2 hp), h3⟩
          intro x hx
          rcases List.mem_cons.1 hx with e | e
          · left; rw [e, hd]; simp
          · exact h1 x e
    | none =>
      simp only [hd] at h
      split at h
      · rename_i hc
        split at h
        · exact absurd h (by simp)
        · split at h
          · exact absurd h (by simp)
          · obtain ⟨h1, _, h3⟩ := ih _ _ _ _ _ _ h
            refine ⟨?_, fun _ => by simp [hc], by simpa using h3⟩
            intro x hx
            rcases List.mem_cons.1 hx with e | e
            · right; rw [e, hc]
            · exact h1 x e
      · exact absurd h (by simp)

theorem parseAddr_of_parseIPv4Fields (s : List Char) (r : List Nat)
    (h : parseIPv4Fields s = some r) : ParseAddr s = some (Addr.v4 r) ∧ r.length = 4 := by
  obtain ⟨h1, h2, h3⟩ := parseIPv4Loop_some s none 0 0 0 [0, 0, 0, 0] r h
  have hdot : '.' ∈ s := h2 (by decide)
  have hf : s.find? (fun c => c = '.' ∨ c = ':' ∨ c = '%') = some '.' := by
    cases hfind : s.find? (fun c => c = '.' ∨ c = ':' ∨ c = '%') with
    | none =>
      rw [List.find?_eq_none] at hfind
      exact absurd (hfind '.' hdot) (by simp)
    | some y =>
      have hy := List.mem_of_find?_eq_some hfind
      have hp := List.find?_some hfind
      rcases h1 y hy with hdig | hy1
      · cases hv : decVal y with
        | none => exact absurd hv hdig
        | some d =>
          obtain ⟨n1, n2, n3⟩ := decVal_not_special y d hv
          simp [n1, n2, n3] at hp
      · rw [hy1]
  refine ⟨?_, by simpa using h3⟩
  unfold ParseAddr
  rw [hf]
  simp [h]

theorem isIPv4_of_dottedDecimal (ip : String) (h : dottedDecimalIPv4 ip = true) :
    isIPv4 ip = true := by
  unfold dottedDecimalIPv4 at h
  cases hr : parseIPv4Fields ip.data with
  | none => simp [hr] at h
  | some r =>
    obtain ⟨h1, h2⟩ := parseAddr_of_parseIPv4Fields ip.data r hr
    match r, h2 with
    | [a, b, c, d], _ =>
      simp [isIPv4, ParseIP, h1, Addr.Zone, Addr.As16, To4]

theorem isIPv4_of_parseIP_nil (ip : String) (h : ParseIP ip = []) : isIPv4 ip = false := by
  simp [isIPv4, h, To4]

theorem mem_filter_split (classify : String → Bool) (ips : List String) (x : String) :
    x ∈ ips.filter classify ++ ips.filter (fun ip => !classify ip) ↔ x ∈ ips := by
  rw [List.mem_append, List.mem_filter, List.mem_filter]
  constructor
  · rintro (⟨h, _⟩ | ⟨h, _⟩) <;> exact h
  · intro h
    by_cases hc : classify x = true
    · exact Or.inl ⟨h, hc⟩
    · exact Or.inr ⟨h, by simpa using hc⟩

theorem map_valueString_value (l : List String) :
    (l.map TFString.value).map TFString.ValueString = l := by
  induction l with
  | nil => rfl
  | cons x xs ih =>
    rw [List.map_cons, List.map_cons, ih]
    rfl

theorem importIDShape_unique (d s d1 sub1 : String)
    (h : ImportIDShape (d ++ ":" ++ s) d1 sub1) : d1 = d ∧ sub1 = s := by
  obtain ⟨_, _, n1, n2, e⟩ := h
  have e1 : d.data ++ ':' :: s.data = d1.data ++ ':' :: sub1.data := by
    have := congrArg String.data e
    simpa [String.data_append] using this
  have hc := congrArg (List.count ':') e1
  simp only [List.count_append, List.count_cons_self, List.count_eq_zero.2 n1,
    List.count_eq_zero.2 n2] at hc
  have m1 : ':' ∉ d.data := List.count_eq_zero.1 (by omega)
  have m2 : ':' ∉ s.data := List.count_eq_zero.1 (by omega)
  have s1 := splitChars_append_sep ':' s.data d.data m1
  have s2 := splitChars_append_sep ':' sub1.data d1.data n1
  rw [e1, s2, splitChars_of_not_mem ':' _ n2, splitChars_of_not_mem ':' _ m2] at s1
  simp only [List.cons.injEq, and_true] at s1
  exact ⟨String.ext s1.1, String.ext s1.2⟩

theorem importIDShape_formatID (d s : String) (hd : d ≠ "") (hs : s ≠ "")
    (nd : ':' ∉ d.data) (ns : ':' ∉ s.data) : ImportIDShape (formatID d s) d s :=
  ⟨hd, hs, nd, ns, rfl⟩

theorem parseIPv6Loop_inv :
    ∀ (rounds i : Nat) (s : List Char) (ell : Option Nat) (ip : List Nat)
      (r : Nat × List Char × Option Nat × List Nat),
      parseIPv6Loop rounds i s ell ip = some r → ip.length = 16 → i % 2 = 0 → i ≤ 16 →
        (∀ e, ell = some e → e ≤ i) →
          r.2.2.2.length = 16 ∧ r.1 ≤ 16 ∧ ∀ e, r.2.2.1 = some e → e ≤ r.1 := by
  intro rounds
  induction rounds with
  | zero =>
    intro i s ell ip r h hlen _ hi hell
    simp only [parseIPv6Loop, Option.some.injEq] at h
    subst h
    exact ⟨hlen, hi, hell⟩
  | succ n ih =>
    intro i s ell ip r h hlen hev hi hell
    simp only [parseIPv6Loop] at h
    split at h
    · simp only [Option.some.injEq] at h
      subst h
      exact ⟨hlen, hi, hell⟩
    · rename_i hlt
      have hlt : i < 16 := by simpa using hlt
      split at h
      · exact absurd h (by simp)
      · split at h
        · exact absurd h (by simp)
        · split at h
          · split at h
            · exact absurd h (by simp)
            · split at h
              · exact absurd h (by simp)
              · rename_i h4
                split at h
                · exact absurd h (by simp)
                · simp only [Option.some.injEq] at h
                  subst h
                  refine ⟨by simp [hlen], by omega, ?_⟩
                  intro e he
                  have := hell e he
                  simp only
                  omega
          · split at h
            · simp only [Option.some.injEq] at h
              subst h
              refine ⟨by simp [hlen], by omega, ?_⟩
              intro e he
              have := hell e he
              simp only
              omega
            · split at h
              · exact absurd h (by simp)
              · split at h
                · exact absurd h (by simp)
                · split at h
                  · split at h
                    · exact absurd h (by simp)
                    · split at h
                      · simp only [Option.some.injEq] at h
                        subst h
                        refine ⟨by simp [hlen], by omega, ?_⟩
                        intro e he
                        simp only [Option.some.injEq] at he
                        omega
                      · refine ih _ _ _ _ _ h (by simp [hlen]) (by omega) (by omega) ?_
                        intro e he
                        simp only [Option.some.injEq] at he
                        omega
                  · refine ih _ _ _ _ _ h (by simp [hlen]) (by omega) (by omega) ?_
                    intro e he
                    have := hell e he
                    omega

theorem parseIPv6_length (input : List Char) (bytes : List Nat) (zone : List Char)
    (h : parseIPv6 input = some (bytes, zone)) : bytes.length = 16 := by
  unfold parseIPv6 at h
  simp only at h
  split at h
  · exact absurd h (by simp)
  · rename_i s z hsplit
    split at h
    · simp only [Option.some.injEq, Prod.mk.injEq] at h
      rw [← h.1]
      simp
    · split at h
      · exact absurd h (by simp)
      · rename_i i s1 ell ip hloop
        have hinv := parseIPv6Loop_inv _ _ _ _ _ _ hloop (by simp) (by decide) (by decide)
          (by
            intro e he
            split at he <;> simp_all)
        simp only at hinv
        split at h
        · exact absurd h (by simp)
        · split at h
          · rename_i hi
            split at h
            · exact absurd h (by simp)
            · rename_i e
              simp only [Option.some.injEq, Prod.mk.injEq] at h
              rw [← h.1]
              have he := hinv.2.2 e rfl
              simp only [List.length_append, List.length_take, List.length_replicate,
                List.length_drop, hinv.1]
              omega
          · split at h
            · exact absurd h (by simp)
            · simp only [Option.some.injEq, Prod.mk.injEq] at h
              rw [← h.1]
              exact hinv.1

theorem parseAddr_v4 (s : List Char) (f : List Nat) (h : ParseAddr s = some (Addr.v4 f)) :
    parseIPv4Fields s = some f := by
  unfold ParseAddr at h
  split at h
  · cases hp : parseIPv4Fields s with
    | none => simp [hp] at h
    | some r => simpa [hp] using h
  · cases hp : parseIPv6 s with
    | none => simp [hp] at h
    | some r => simp [hp] at h
  · exact absurd h (by simp)

theorem parseAddr_v6 (s : List Char) (bytes : List Nat) (zone : List Char)
    (h : ParseAddr s = some (Addr.v6 bytes zone)) : parseIPv6 s = some (bytes, zone) := by
  unfold ParseAddr at h
  split at h
  · cases hp : parseIPv4Fields s with
    | none => simp [hp] at h
    | some r => simp [hp] at h
  · cases hp : parseIPv6 s with
    | none => simp [hp] at h
    | some r =>
      simp only [hp, Option.map_some', Option.some.injEq, Addr.v6.injEq] at h
      rw [← h.1, ← h.2]
  · exact absurd h (by simp)

/-! ## More lemmas on the decode loop and on the test server -/

theorem lookup_first (key : String) (v : GoAny) (rest1 : List (String × GoAny)) :
    ∀ rest0 : List (String × GoAny), (∀ e ∈ rest0, e.1 ≠ key) →
      (rest0 ++ (key, v) :: rest1).lookup key = some v := by
  intro rest0
  induction rest0 with
  | nil => intro _; simp [List.lookup]
  | cons e rest ih =>
    obtain ⟨k, w⟩ := e
    intro h
    have hk : k ≠ key := h (k, w) (by simp)
    have h1 : (key == k) = false := by
      simpa using fun e => hk e.symm
    have hr : ∀ e ∈ rest, e.1 ≠ key := fun e he => h e (by simp [he])
    simp [List.lookup, h1, ih hr]

theorem lookup_absent (key : String) :
    ∀ obj : List (String × GoAny), (∀ e ∈ obj, e.1 ≠ key) → obj.lookup key = none := by
  intro obj
  induction obj with
  | nil => intro _; rfl
  | cons e rest ih =>
    obtain ⟨k, w⟩ := e
    intro h
    have hk : k ≠ key := h (k, w) (by simp)
    have h1 : (key == k) = false := by
      simpa using fun e => hk e.symm
    have hr : ∀ e ∈ rest, e.1 ≠ key := fun e he => h e (by simp [he])
    simp [List.lookup, h1, ih hr]

theorem get?_ensureDomain (m : Server) (d : String) :
    GoMap.get? (ensureDomain m d).glueRecords d =
      some ((GoMap.get? m.glueRecords d).getD (some [])) := by
  unfold ensureDomain
  cases h : GoMap.get? m.glueRecords d with
  | none => simp [GoMap.get?_set_self]
  | some v => simp [h]

theorem ensureDomain_eq_self (m : Server) (d : String) (v : Option (GoMap (List String)))
    (h : GoMap.get? m.glueRecords d = some v) : ensureDomain m d = m := by
  simp [ensureDomain, h]

/-- The handler `createGlue` where the map held for the domain is not nil: it writes
`SUCCESS`, and the map of the domain is then the old one (an empty one for a new domain)
with `ips` under `s`. -/
theorem createGlue_of_not_nil (m : Server) (d s : String) (ips : List String)
    (h : GoMap.get? m.glueRecords d ≠ some none) :
    (createGlue m d s ips).2 = some successStatus ∧
      ∃ inner, GoMap.get? (createGlue m d s ips).1.glueRecords d =
        some (some (GoMap.set inner s ips)) := by
  have he := get?_ensureDomain m d
  cases hg : GoMap.get? m.glueRecords d with
  | none =>
    rw [hg] at he
    simp only [Option.getD_none] at he
    refine ⟨by simp [createGlue, assignGlue, he], [], ?_⟩
    simp [createGlue, assignGlue, he, GoMap.get?_modify_self]
  | some v =>
    cases v with
    | none => exact absurd hg h
    | some inner =>
      rw [hg] at he
      simp only [Option.getD_some] at he
      refine ⟨by simp [createGlue, assignGlue, he], inner, ?_⟩
      simp [createGlue, assignGlue, he, GoMap.get?_modify_self]

/-- The handler `createGlue` where the map held for the domain is nil: the write panics,
nothing is written and the state is unchanged. -/
theorem createGlue_of_nil (m : Server) (d s : String) (ips : List String)
    (h : GoMap.get? m.glueRecords d = some none) : createGlue m d s ips = (m, none) := by
  have he : ensureDomain m d = m := ensureDomain_eq_self m d none h
  simp [createGlue, he, assignGlue, h]

theorem get?_deleteGlue (m : Server) (d s : String) :
    GoMap.get? (deleteGlue m d s).1.glueRecords d =
      (GoMap.get? m.glueRecords d).map
        (fun sub => sub.map (fun entries => GoMap.delete entries s)) := by
  unfold deleteGlue
  cases h : GoMap.get? m.glueRecords d with
  | none => simp [h]
  | some v => simp [GoMap.get?_modify_self, h]

theorem getGlue_hosts_some (order : RangeOrder) (m : Server) (domain : String)
    (v : GoMap (List String)) (h : GoMap.get? m.glueRecords domain = some (some v)) :
    (getGlue order m domain).Hosts =
      (order v).map (fun e => hostEntry isIPv4 domain e.1 e.2) := by
  have gen : ∀ (l : List (String × List String)) (acc : List (List GoAny)),
      l.foldl (fun hosts e => hosts ++ [hostEntry isIPv4 domain e.1 e.2]) acc =
        acc ++ l.map (fun e => hostEntry isIPv4 domain e.1 e.2) := by
    intro l
    induction l with
    | nil => intro acc; simp
    | cons x xs ih => intro acc; rw [List.foldl_cons, ih]; simp
  simp [getGlue, h, gen]

theorem getGlue_hosts_none (order : RangeOrder) (m : Server) (domain : String)
    (h : ∀ v, GoMap.get? m.glueRecords domain ≠ some (some v)) :
    (getGlue order m domain).Hosts = [] := by
  unfold getGlue
  cases hg : GoMap.get? m.glueRecords domain with
  | none => rfl
  | some x =>
    cases x with
    | none => rfl
    | some v => exact absurd hg (h v)

/-- What the client decodes from the body of the `getGlue` handler: one record per entry of
the domain's map, in the order of the visit. -/
theorem getGlueRecords_getGlue (order : RangeOrder) (m : Server) (domain : String) :
    GetGlueRecords domain (Except.ok (getGlue order m domain)) =
      Except.ok
        (match GoMap.get? m.glueRecords domain with
        | some (some records) =>
          (order records).map (fun e =>
            { Domain := domain, Subdomain := formatHost e.1 domain,
              IPs := e.2.filter isIPv4 ++ e.2.filter (fun ip => !isIPv4 ip) })
        | _ => []) := by
  have hs : successStatus.failed = false := by decide
  have hst : (getGlue order m domain).status = successStatus := rfl
  unfold GetGlueRecords
  simp only [hst, hs, decodeHosts_eq]
  cases hg : GoMap.get? m.glueRecords domain with
  | none =>
    rw [getGlue_hosts_none order m domain (by simp [hg])]
    rfl
  | some x =>
    cases x with
    | none =>
      rw [getGlue_hosts_none order m domain (by simp [hg])]
      rfl
    | some v =>
      rw [getGlue_hosts_some order m domain v hg]
      simp only [specDecode, List.filterMap_map, Function.comp_def,
        (specRecord_hostEntry isIPv4 domain _ _).2]
      have fm : ∀ l : List (String × List String),
          l.filterMap (fun x => some
            ({ Domain := domain, Subdomain := formatHost x.1 domain,
               IPs := x.2.filter isIPv4 ++ x.2.filter (fun ip => !isIPv4 ip) } : GlueRecord)) =
          l.map (fun e =>
            { Domain := domain, Subdomain := formatHost e.1 domain,
              IPs := e.2.filter isIPv4 ++ e.2.filter (fun ip => !isIPv4 ip) }) := by
        intro l
        induction l with
        | nil => rfl
        | cons x xs ih => simp [List.filterMap_cons, ih]
      simp [fm]

theorem read_served_set (order : RangeOrder) (horder : order.Valid) (m : Server)
    (get : String → Except ClientError (List GlueRecord))
    (inner : GoMap (List String)) (ips : List String) (data : GlueRecordResourceModel)
    (resp : Response) (hresp : HasError resp.Diagnostics = false)
    (hserved : get data.Domain.ValueString =
      GetGlueRecords data.Domain.ValueString
        (Except.ok (getGlue order m data.Domain.ValueString)))
    (hm : GoMap.get? m.glueRecords data.Domain.ValueString =
      some (some (GoMap.set inner data.Subdomain.ValueString ips))) :
    Read get data resp =
      { Diagnostics := resp.Diagnostics
        State := some
          { ID := TFString.value (data.Domain.ValueString ++ ":" ++ data.Subdomain.ValueString)
            Domain := data.Domain
            Subdomain := data.Subdomain
            IPs := (ips.filter isIPv4 ++ ips.filter (fun ip => !isIPv4 ip)).map
              TFString.value } } := by
  rw [getGlueRecords_getGlue, hm] at hserved
  have hfind := find?_records_set order horder inner data.Domain.ValueString
    data.Subdomain.ValueString ips
  exact read_found get data resp _ _ hresp hserved hfind

theorem read_served_deleted (order : RangeOrder) (horder : order.Valid) (m : Server)
    (get : String → Except ClientError (List GlueRecord))
    (data : GlueRecordResourceModel) (resp : Response)
    (hresp : HasError resp.Diagnostics = false)
    (hserved : get data.Domain.ValueString =
      GetGlueRecords data.Domain.ValueString
        (Except.ok (getGlue order m data.Domain.ValueString)))
    (hm : ∃ inner : Option (Option (GoMap (List String))),
      GoMap.get? m.glueRecords data.Domain.ValueString =
        inner.map (fun sub =>
          sub.map (fun entries => GoMap.delete entries data.Subdomain.ValueString))) :
    Read get data resp = { Diagnostics := resp.Diagnostics, State := none } := by
  obtain ⟨inner, hm⟩ := hm
  rw [getGlueRecords_getGlue, hm] at hserved
  cases inner with
  | none => exact read_not_found get data resp _ hresp hserved rfl
  | some x =>
    cases x with
    | none => exact read_not_found get data resp _ hresp hserved rfl
    | some sub =>
      have hfind := find?_records_delete order horder sub data.Domain.ValueString
        data.Subdomain.ValueString
      exact read_not_found get data resp _ hresp hserved hfind

theorem statusResult_success : statusResult (Except.ok successStatus) = none := by
  decide

theorem createGlue_of_some (m : Server) (d s : String) (ips : List String)
    (v : GoMap (List String)) (h : GoMap.get? m.glueRecords d = some (some v)) :
    createGlue m d s ips =
      (⟨m.nameservers, m.dnsRecords,
          GoMap.modify m.glueRecords d
            (fun sub => sub.map (fun entries => GoMap.set entries s ips))⟩,
        some successStatus) := by
  simp [createGlue, ensureDomain_eq_self m d _ h, assignGlue, h]

theorem updateGlue_idem (m : Server) (d s : String) (ips : List String) :
    updateGlue (updateGlue m d s ips).1 d s ips = updateGlue m d s ips := by
  have hcu : ∀ m1 : Server, updateGlue m1 d s ips = createGlue m1 d s ips := fun _ => rfl
  rw [hcu, hcu]
  have hcomp : (fun sub : Option (GoMap (List String)) =>
        sub.map (fun entries => GoMap.set entries s ips)) ∘
      (fun sub : Option (GoMap (List String)) =>
        sub.map (fun entries => GoMap.set entries s ips)) =
      fun sub : Option (GoMap (List String)) =>
        sub.map (fun entries => GoMap.set entries s ips) := by
    funext sub
    cases sub <;> simp [GoMap.set_set]
  have hsome : ∀ (m1 : Server) (v : GoMap (List String)),
      GoMap.get? m1.glueRecords d = some (some v) →
        createGlue (createGlue m1 d s ips).1 d s ips = createGlue m1 d s ips := by
    intro m1 v hv
    have h1 := createGlue_of_some m1 d s ips v hv
    have h2 : GoMap.get? (createGlue m1 d s ips).1.glueRecords d =
        some (some (GoMap.set v s ips)) := by
      rw [h1]
      simp [GoMap.get?_modify_self, hv]
    rw [createGlue_of_some _ d s ips _ h2, h1]
    simp [GoMap.modify_modify, hcomp]
  cases hg : GoMap.get? m.glueRecords d with
  | none =>
    have he : GoMap.get? (ensureDomain m d).glueRecords d = some (some []) := by
      rw [get?_ensureDomain, hg]
      rfl
    have hee : ensureDomain (ensureDomain m d) d = ensureDomain m d :=
      ensureDomain_eq_self _ d _ he
    have hc : createGlue m d s ips = createGlue (ensureDomain m d) d s ips := by
      simp [createGlue, hee]
    rw [hc]
    exact hsome _ [] he
  | some x =>
    cases x with
    | none =>
      rw [createGlue_of_nil m d s ips hg]
      exact createGlue_of_nil m d s ips hg
    | some v => exact hsome m v hg

theorem deleteGlue_absent (m : Server) (d s : String)
    (h : ∀ sub, GoMap.get? m.glueRecords d = some (some sub) → GoMap.get? sub s = none) :
    (deleteGlue m d s).1 = m := by
  unfold deleteGlue
  cases hg : GoMap.get? m.glueRecords d with
  | none => rfl
  | some v =>
    have : GoMap.modify m.glueRecords d
        (fun sub => sub.map (fun entries => GoMap.delete entries s)) = m.glueRecords := by
      apply GoMap.modify_eq_self
      intro v1 hv1
      cases v1 with
      | none => rfl
      | some w => simp [GoMap.delete_eq_self s w (h w hv1)]
    simp [this]

/-! ## The claims -/

/-- C1: `ImportState` succeeds exactly on the identifiers `d ++ ":" ++ sub` with `d` and `sub`
non-empty and free of `:`, which are the identifiers that `Split` on `:` cuts into exactly
two non-empty parts. On such an identifier it adds no diagnostic and sets `domain = d`,
`subdomain = sub` and `id = s`; on every other identifier it adds the error
`Unexpected Import Identifier` and leaves the state as it was (no attribute set). -/
theorem importState_spec (s : String) (resp : Response) :
    ((∃ d sub : String, ImportIDShape s d sub) ↔
        ∃ a b : String, Split s ':' = [a, b] ∧ a ≠ "" ∧ b ≠ "") ∧
      ((ImportState s resp).Diagnostics = resp.Diagnostics ↔
        ∃ d sub : String, ImportIDShape s d sub) ∧
      (∀ d sub : String, ImportIDShape s d sub →
        ImportState s resp =
          { Diagnostics := resp.Diagnostics
            State := some { resp.State.getD nullModel with
              ID := TFString.value s
              Domain := TFString.value d
              Subdomain := TFString.value sub } }) ∧
      ((¬ ∃ d sub : String, ImportIDShape s d sub) →
        ImportState s resp =
          { Diagnostics :=
              resp.Diagnostics ++
                [{ severity := Severity.error
                   summary := "Unexpected Import Identifier"
                   detail := "Expected import identifier with format: domain:subdomain. Got: %q"
                   detailArgs := [s] }]
            State := resp.State }) := by
  have key := split_pair_iff s
  have hgood : ∀ d sub : String, ImportIDShape s d sub →
      ImportState s resp =
        { Diagnostics := resp.Diagnostics
          State := some { resp.State.getD nullModel with
            ID := TFString.value s
            Domain := TFString.value d
            Subdomain := TFString.value sub } } := by
    intro d sub h
    have h5 : s = d ++ ":" ++ sub := h.2.2.2.2
    have hsplit : Split s ':' = [d, sub] := by
      have e : (d ++ ":" ++ sub).data = d.data ++ ':' :: sub.data := by
        simp [String.data_append]
      simp [Split, h5, e, splitChars_append_sep ':' sub.data d.data h.2.2.1,
        splitChars_of_not_mem ':' sub.data h.2.2.2.1]
    exact importState_of_pair s d sub resp hsplit h.1 h.2.1
  have hbad : (¬ ∃ d sub : String, ImportIDShape s d sub) →
      ImportState s resp =
        { Diagnostics :=
            resp.Diagnostics ++
              [{ severity := Severity.error
                 summary := "Unexpected Import Identifier"
                 detail := "Expected import identifier with format: domain:subdomain. Got: %q"
                 detailArgs := [s] }]
          State := resp.State } := by
    intro h
    exact importState_of_not_pair s resp (fun hp => h (key.2 hp))
  refine ⟨key, ?_, hgood, hbad⟩
  constructor
  · intro hdiag
    by_contra hne
    rw [hbad hne] at hdiag
    simp at hdiag
  · rintro ⟨d, sub, h⟩
    rw [hgood d sub h]

/-- C1, at concrete identifiers: `"example.com:ns1"` is accepted with
`domain = "example.com"` and `subdomain = "ns1"`; `"example.com"`, `"a:b:c"`, `":ns1"` and
`"example.com:"` are rejected with no attribute set. -/
theorem importState_spec_witness :
    ImportState "example.com:ns1" { Diagnostics := [], State := none } =
        { Diagnostics := []
          State := some
            { ID := TFString.value "example.com:ns1"
              Domain := TFString.value "example.com"
              Subdomain := TFString.value "ns1"
              IPs := [] } } ∧
      (ImportState "example.com" { Diagnostics := [], State := none }).State = none ∧
      (ImportState "a:b:c" { Diagnostics := [], State := none }).State = none ∧
      (ImportState ":ns1" { Diagnostics := [], State := none }).State = none ∧
      (ImportState "example.com:" { Diagnostics := [], State := none }).State = none ∧
      HasError (ImportState "a:b:c" { Diagnostics := [], State := none }).Diagnostics = true :=
  ⟨(importState_spec "example.com:ns1" { Diagnostics := [], State := none }).2.2.1
      "example.com" "ns1" (by decide),
    by decide, by decide, by decide, by decide, by decide⟩

/-- C2: on a response whose status is not a failure, `GetGlueRecords` returns without error
the records of the decode loop, and the loop never fails: its result is one record per entry
made of exactly a string and then an object, in the order of the payload; an entry of any
other shape is skipped and changes nothing in the records of the entries before and after
it. -/
theorem getGlueRecords_decode_total (domain : String) (st : status)
    (hosts : List (List GoAny)) (hst : st.failed = false) :
    GetGlueRecords domain (Except.ok { status := st, Hosts := hosts }) =
        Except.ok (decodeHosts domain hosts) ∧
      decodeHosts domain hosts = specDecode domain hosts ∧
      (decodeHosts domain hosts).length =
        (hosts.filter (fun h => (wellFormedEntry h).isSome)).length ∧
      (∀ (h : List GoAny) (e : String × List (String × GoAny)),
        wellFormedEntry h = some e ↔ h = [GoAny.string e.1, GoAny.object e.2]) ∧
      (∀ pre h post, hosts = pre ++ h :: post → wellFormedEntry h = none →
        decodeHosts domain hosts = decodeHosts domain pre ++ decodeHosts domain post) ∧
      (∀ pre h post e, hosts = pre ++ h :: post → wellFormedEntry h = some e →
        decodeHosts domain hosts =
          decodeHosts domain pre ++ specRecord domain e :: decodeHosts domain post) := by
  refine ⟨?_, decodeHosts_eq domain hosts, ?_, ?_, ?_, ?_⟩
  · simp [GetGlueRecords, hst]
  · rw [decodeHosts_eq]
    unfold specDecode
    induction hosts with
    | nil => rfl
    | cons h hs ih =>
      cases hw : wellFormedEntry h <;> simp [List.filterMap_cons, List.filter_cons, hw, ih]
  · intro h e
    constructor
    · intro hw
      match h, hw with
      | [GoAny.string hostName, GoAny.object obj], hw =>
        simp only [wellFormedEntry, Option.some.injEq] at hw
        rw [← hw]
    · intro hh
      rw [hh]
      rfl
  · intro pre h post hh hw
    rw [hh, decodeHosts_append]
    have : decodeHosts domain (h :: post) = decodeHosts domain post := by
      simp [decodeHosts_eq, specDecode, List.filterMap_cons, hw]
    rw [this]
  · intro pre h post e hh hw
    rw [hh, decodeHosts_append]
    have : decodeHosts domain (h :: post) = specRecord domain e :: decodeHosts domain post := by
      simp [decodeHosts_eq, specDecode, List.filterMap_cons, hw]
    rw [this]

/-- C2, at a payload with entries of wrong arity, with a hostname that is not a string and
with an address map that is not an object: only the two well-formed entries give records. -/
theorem getGlueRecords_decode_total_witness :
    successStatus.failed = false ∧
      GetGlueRecords "example.com"
          (Except.ok
            { status := successStatus
              Hosts :=
                [[GoAny.string "ns1.example.com",
                    GoAny.object [("v4", GoAny.array [GoAny.string "192.168.1.1"])]],
                  [],
                  [GoAny.number "1", GoAny.object []],
                  [GoAny.string "x.example.com", GoAny.array []],
                  [GoAny.string "a", GoAny.object [], GoAny.null],
                  [GoAny.string "ns2.example.com", GoAny.object []]] }) =
        Except.ok
          [{ Domain := "example.com", Subdomain := "ns1.example.com", IPs := ["192.168.1.1"] },
            { Domain := "example.com", Subdomain := "ns2.example.com", IPs := [] }] :=
  ⟨by decide,
    (getGlueRecords_decode_total "example.com" successStatus _ (by decide)).1.trans rfl⟩

/-- C3: a well-formed entry `[hostName, obj]` of the host list gives, at its place among the
records, the record with `Domain` the requested domain, `Subdomain = hostName` unchanged, and
`IPs` the addresses under `"v4"` followed by the addresses under `"v6"`, where the addresses
under a key are the string elements, in order, of the array that the first entry of `obj`
with that key holds: elements that are not strings are dropped, and a key that is missing or
whose value is not an array gives no address. -/
theorem decodeHosts_record (domain hostName : String) (obj : List (String × GoAny))
    (pre post : List (List GoAny)) :
    decodeHosts domain (pre ++ [GoAny.string hostName, GoAny.object obj] :: post) =
        decodeHosts domain pre ++
          { Domain := domain
            Subdomain := hostName
            IPs := specAddresses obj "v4" ++ specAddresses obj "v6" } ::
            decodeHosts domain post ∧
      (∀ (key : String) (elems : List GoAny) (before after : List (String × GoAny)),
        obj = before ++ (key, GoAny.array elems) :: after → (∀ e ∈ before, e.1 ≠ key) →
        specAddresses obj key =
          elems.filterMap (fun e =>
            match e with
            | GoAny.string s => some s
            | _ => none)) ∧
      (∀ (key : String) (v : GoAny) (before after : List (String × GoAny)),
        obj = before ++ (key, v) :: after → (∀ e ∈ before, e.1 ≠ key) →
        (∀ elems : List GoAny, v ≠ GoAny.array elems) → specAddresses obj key = []) ∧
      (∀ key : String, (∀ e ∈ obj, e.1 ≠ key) → specAddresses obj key = []) := by
  have hidx : ∀ (fields : List (String × GoAny)) (key : String),
      stringElems (mapIndex fields key) = specAddresses fields key := by
    intro fields key
    induction fields with
    | nil => rfl
    | cons e rest ih =>
      obtain ⟨k, v⟩ := e
      by_cases h : k = key
      · subst h
        cases v <;> simp [mapIndex, specAddresses, List.lookup, stringElems]
      · have h1 : (key == k) = false := by
          simpa using fun e => h e.symm
        simpa [mapIndex, specAddresses, List.lookup, h, h1] using ih
  refine ⟨?_, ?_, ?_, ?_⟩
  · rw [decodeHosts_append]
    simp [decodeHosts_eq, specDecode, List.filterMap_cons, wellFormedEntry, specRecord, hidx]
  · intro key elems before after hobj hbefore
    unfold specAddresses
    rw [hobj, lookup_first key _ after before hbefore]
  · intro key v before after hobj hbefore hv
    unfold specAddresses
    rw [hobj, lookup_first key _ after before hbefore]
    cases v with
    | array elems => exact absurd rfl (hv elems)
    | null => rfl
    | bool b => rfl
    | number t => rfl
    | string t => rfl
    | object f => rfl
  · intro key h
    unfold specAddresses
    rw [lookup_absent key obj h]

/-- C3, at a payload of three entries: the first has `v6` before `v4`, elements that are not
strings and a second `v4` entry; the second has a `v4` value that is not an array and no
`v6`; the third has both arrays. -/
theorem decodeHosts_record_witness :
    decodeHosts "example.com"
        ([[GoAny.string "ns0.example.com",
              GoAny.object [("v4", GoAny.array [GoAny.string "10.0.0.1"])]]] ++
          [GoAny.string "ns1.example.com",
              GoAny.object
                [("v6", GoAny.array [GoAny.string "2001:db8::1", GoAny.null]),
                  ("v4", GoAny.array
                    [GoAny.number "4", GoAny.string "192.168.1.1", GoAny.string "192.168.1.2"]),
                  ("v4", GoAny.array [GoAny.string "9.9.9.9"])]] ::
            [[GoAny.string "ns2.example.com",
                GoAny.object [("v4", GoAny.string "1.1.1.1")]]]) =
      [{ Domain := "example.com", Subdomain := "ns0.example.com", IPs := ["10.0.0.1"] },
        { Domain := "example.com", Subdomain := "ns1.example.com",
          IPs := ["192.168.1.1", "192.168.1.2", "2001:db8::1"] },
        { Domain := "example.com", Subdomain := "ns2.example.com", IPs := [] }] :=
  (decodeHosts_record "example.com" "ns1.example.com"
      [("v6", GoAny.array [GoAny.string "2001:db8::1", GoAny.null]),
        ("v4", GoAny.array
          [GoAny.number "4", GoAny.string "192.168.1.1", GoAny.string "192.168.1.2"]),
        ("v4", GoAny.array [GoAny.string "9.9.9.9"])]
      [[GoAny.string "ns0.example.com",
          GoAny.object [("v4", GoAny.array [GoAny.string "10.0.0.1"])]]]
      [[GoAny.string "ns2.example.com",
          GoAny.object [("v4", GoAny.string "1.1.1.1")]]]).1.trans (by decide)

/-- C4: when the state is read without error and `GetGlueRecords` returns `records` for the
domain of the state, `Read` keeps `domain` and `subdomain`, takes as `ips` the `IPs`, in
order, of the first record whose `Subdomain` is `subdomain ++ "." ++ domain`, and sets
`id = domain ++ ":" ++ subdomain`; when no record has that `Subdomain`, it removes the
resource from the state and adds no diagnostic. -/
theorem read_spec (get : String → Except ClientError (List GlueRecord))
    (data : GlueRecordResourceModel) (resp : Response) (records : List GlueRecord)
    (hresp : HasError resp.Diagnostics = false)
    (hget : get data.Domain.ValueString = Except.ok records) :
    (∀ pre r post, records = pre ++ r :: post →
        (∀ x ∈ pre, x.Subdomain ≠ data.Subdomain.ValueString ++ "." ++ data.Domain.ValueString) →
        r.Subdomain = data.Subdomain.ValueString ++ "." ++ data.Domain.ValueString →
        Read get data resp =
          { Diagnostics := resp.Diagnostics
            State := some
              { ID := TFString.value
                  (data.Domain.ValueString ++ ":" ++ data.Subdomain.ValueString)
                Domain := data.Domain
                Subdomain := data.Subdomain
                IPs := r.IPs.map TFString.value } }) ∧
      ((∀ x ∈ records,
          x.Subdomain ≠ data.Subdomain.ValueString ++ "." ++ data.Domain.ValueString) →
        Read get data resp = { Diagnostics := resp.Diagnostics, State := none }) ∧
      ((∃ x ∈ records,
          x.Subdomain = data.Subdomain.ValueString ++ "." ++ data.Domain.ValueString) ↔
        (Read get data resp).State ≠ none) := by
  have hnone : (∀ x ∈ records,
      x.Subdomain ≠ data.Subdomain.ValueString ++ "." ++ data.Domain.ValueString) →
      Read get data resp = { Diagnostics := resp.Diagnostics, State := none } := by
    intro h
    apply read_not_found get data resp records hresp hget
    rw [List.find?_eq_none]
    intro x hx
    simpa using h x hx
  refine ⟨?_, hnone, ?_⟩
  · intro pre r post hrec hpre hr
    apply read_found get data resp records r hresp hget
    rw [hrec]
    clear hrec hnone hget
    induction pre with
    | nil => simp [hr]
    | cons p ps ih =>
      have hp : p.Subdomain ≠ data.Subdomain.ValueString ++ "." ++ data.Domain.ValueString :=
        hpre p (by simp)
      have hps : ∀ x ∈ ps,
          x.Subdomain ≠ data.Subdomain.ValueString ++ "." ++ data.Domain.ValueString :=
        fun x hx => hpre x (by simp [hx])
      simp only [List.cons_append, List.find?_cons]
      simp only [hp, decide_False]
      exact ih hps
  · constructor
    · rintro ⟨x, hx, hxs⟩
      cases hf : records.find? (fun r =>
          r.Subdomain = data.Subdomain.ValueString ++ "." ++ data.Domain.ValueString) with
      | none =>
        rw [List.find?_eq_none] at hf
        exact absurd hxs (by simpa using hf x hx)
      | some r =>
        rw [read_found get data resp records r hresp hget hf]
        simp
    · intro h
      by_contra hne
      push_neg at hne
      rw [hnone hne] at h
      exact h rfl

/-- C4, at a list in which the second and the third record are named `ns1.example.com`: the
addresses of the second one are taken. -/
theorem read_spec_witness :
    Read
        (fun _ => Except.ok
          [{ Domain := "example.com", Subdomain := "ns2.example.com", IPs := ["10.0.0.2"] },
            { Domain := "example.com", Subdomain := "ns1.example.com",
              IPs := ["192.168.1.1", "2001:db8::1"] },
            { Domain := "example.com", Subdomain := "ns1.example.com", IPs := ["10.0.0.9"] }])
        { ID := TFString.value "example.com:ns1", Domain := TFString.value "example.com",
          Subdomain := TFString.value "ns1", IPs := [TFString.value "10.0.0.1"] }
        { Diagnostics := [], State := none } =
      { Diagnostics := []
        State := some
          { ID := TFString.value "example.com:ns1"
            Domain := TFString.value "example.com"
            Subdomain := TFString.value "ns1"
            IPs := [TFString.value "192.168.1.1", TFString.value "2001:db8::1"] } } :=
  (read_spec
      (fun _ => Except.ok
        [{ Domain := "example.com", Subdomain := "ns2.example.com", IPs := ["10.0.0.2"] },
          { Domain := "example.com", Subdomain := "ns1.example.com",
            IPs := ["192.168.1.1", "2001:db8::1"] },
          { Domain := "example.com", Subdomain := "ns1.example.com", IPs := ["10.0.0.9"] }])
      { ID := TFString.value "example.com:ns1", Domain := TFString.value "example.com",
        Subdomain := TFString.value "ns1", IPs := [TFString.value "10.0.0.1"] }
      { Diagnostics := [], State := none } _ (by decide) rfl).1
    [{ Domain := "example.com", Subdomain := "ns2.example.com", IPs := ["10.0.0.2"] }]
    { Domain := "example.com", Subdomain := "ns1.example.com",
      IPs := ["192.168.1.1", "2001:db8::1"] }
    [{ Domain := "example.com", Subdomain := "ns1.example.com", IPs := ["10.0.0.9"] }]
    rfl (by decide) (by decide)

/-- C5: whatever the test `classify` that sends an address to the `v4` or to the `v6` list,
the addresses the client decodes from the entry the `getGlue` handler writes for `ips` are
the addresses sent to `v4`, in their order in `ips`, followed by those sent to `v6`, in their
order in `ips`: a rearrangement of `ips` with the same elements, each as many times. -/
theorem ips_roundtrip (classify : String → Bool) (domain sub : String) (ips : List String) :
    collectIPs
        [("v4", GoAny.array ((splitIPs classify ips).1.map GoAny.string)),
          ("v6", GoAny.array ((splitIPs classify ips).2.map GoAny.string))] =
        ips.filter classify ++ ips.filter (fun ip => !classify ip) ∧
      decodeHosts domain [hostEntry classify domain sub ips] =
        [{ Domain := domain
           Subdomain := sub ++ "." ++ domain
           IPs := ips.filter classify ++ ips.filter (fun ip => !classify ip) }] ∧
      (ips.filter classify ++ ips.filter (fun ip => !classify ip)).Perm ips ∧
      (∀ x, x ∈ ips.filter classify ++ ips.filter (fun ip => !classify ip) ↔ x ∈ ips) ∧
      (∀ x, (ips.filter classify ++ ips.filter (fun ip => !classify ip)).count x =
        ips.count x) ∧
      (ips.filter classify).Sublist ips ∧ (ips.filter (fun ip => !classify ip)).Sublist ips := by
  have hperm : (ips.filter classify ++ ips.filter (fun ip => !classify ip)).Perm ips :=
    List.filter_append_perm classify ips
  refine ⟨?_, ?_, hperm, mem_filter_split classify ips, fun x => hperm.count_eq x,
    List.filter_sublist ips, List.filter_sublist ips⟩
  · simp [collectIPs_eq, mapIndex, stringElems_map_string, splitIPs_eq]
  · rw [decodeHosts_eq]
    simp [specDecode, List.filterMap_cons, (specRecord_hostEntry classify domain sub ips).2,
      formatHost]

/-- C6, refuted as stated: in the state that `SetGlueRecords("example.com", nil)` leaves, the
guard of `createGlue` finds the key, the write into the nil map panics, no status is written
and the state is unchanged; the host list of `getGlue` is then empty, so `GetGlueRecords`
has no record named `ns1.example.com` and `Read` removes the resource. -/
theorem create_update_read_counterexample :
    (createGlue { nameservers := [], dnsRecords := [], glueRecords := [("example.com", none)] }
        "example.com" "ns1" ["192.168.1.1", "2001:db8::1"]).2 = none ∧
      (createGlue { nameservers := [], dnsRecords := [], glueRecords := [("example.com", none)] }
        "example.com" "ns1" ["192.168.1.1", "2001:db8::1"]).1 =
        { nameservers := [], dnsRecords := [], glueRecords := [("example.com", none)] } ∧
      GetGlueRecords "example.com"
          (Except.ok
            (getGlue id
              (createGlue
                { nameservers := [], dnsRecords := [], glueRecords := [("example.com", none)] }
                "example.com" "ns1" ["192.168.1.1", "2001:db8::1"]).1 "example.com")) =
        Except.ok [] ∧
      Read
          (fun dom =>
            GetGlueRecords dom
              (Except.ok
                (getGlue id
                  (createGlue
                    { nameservers := [], dnsRecords := []
                      glueRecords := [("example.com", none)] }
                    "example.com" "ns1" ["192.168.1.1", "2001:db8::1"]).1 dom)))
          { ID := TFString.unknown, Domain := TFString.value "example.com",
            Subdomain := TFString.value "ns1", IPs := [] }
          { Diagnostics := [], State := none } =
        { Diagnostics := [], State := none } :=
  ⟨rfl, rfl, rfl, rfl⟩

/-- C6, amended: on the test server in a state where the map held for `d` is not the nil map,
whatever the order in which the handler visits its map, `createGlue(d, s, ips)` reports
success; a `GetGlueRecords(d)` answered with the body the `getGlue` handler writes for `d`
then contains a record named `s ++ "." ++ d`, and `Read` for `(d, s)` gives a state whose
addresses are a rearrangement of `ips`; a following `updateGlue(d, s, ips2)` reports success
and `Read` then gives a state whose addresses are a rearrangement of `ips2`, so that an
address of `ips` is there only if it is in `ips2`. -/
theorem create_update_read (order : RangeOrder) (m : Server) (d s : String)
    (ips ips2 : List String) (data : GlueRecordResourceModel) (resp : Response)
    (get1 get2 : String → Except ClientError (List GlueRecord))
    (horder : order.Valid) (hmap : GoMap.get? m.glueRecords d ≠ some none)
    (hd : data.Domain.ValueString = d) (hs : data.Subdomain.ValueString = s)
    (hresp : HasError resp.Diagnostics = false)
    (hget1 : get1 d = GetGlueRecords d (Except.ok (getGlue order (createGlue m d s ips).1 d)))
    (hget2 : get2 d =
      GetGlueRecords d
        (Except.ok (getGlue order (updateGlue (createGlue m d s ips).1 d s ips2).1 d))) :
    (createGlue m d s ips).2 = some successStatus ∧
      (∃ recs, get1 d = Except.ok recs ∧
        ∃ r ∈ recs, r.Subdomain = s ++ "." ++ d ∧ r.IPs.Perm ips) ∧
      (∃ st, Read get1 data resp = { Diagnostics := resp.Diagnostics, State := some st } ∧
        st.Domain = data.Domain ∧ st.Subdomain = data.Subdomain ∧
        st.ID = TFString.value (d ++ ":" ++ s) ∧
        st.IPs = (ips.filter isIPv4 ++ ips.filter (fun ip => !isIPv4 ip)).map TFString.value ∧
        (st.IPs.map TFString.ValueString).Perm ips ∧
        ∀ x, x ∈ st.IPs.map TFString.ValueString ↔ x ∈ ips) ∧
      (updateGlue (createGlue m d s ips).1 d s ips2).2 = some successStatus ∧
      (∃ st, Read get2 data resp = { Diagnostics := resp.Diagnostics, State := some st } ∧
        st.Domain = data.Domain ∧ st.Subdomain = data.Subdomain ∧
        st.ID = TFString.value (d ++ ":" ++ s) ∧
        st.IPs = (ips2.filter isIPv4 ++ ips2.filter (fun ip => !isIPv4 ip)).map TFString.value ∧
        (st.IPs.map TFString.ValueString).Perm ips2 ∧
        ∀ x, x ∈ st.IPs.map TFString.ValueString ↔ x ∈ ips2) := by
  subst hd hs
  have hread : ∀ (get : String → Except ClientError (List GlueRecord)) (m1 : Server)
      (inner : GoMap (List String)) (l : List String),
      get data.Domain.ValueString =
        GetGlueRecords data.Domain.ValueString
          (Except.ok (getGlue order m1 data.Domain.ValueString)) →
      GoMap.get? m1.glueRecords data.Domain.ValueString =
        some (some (GoMap.set inner data.Subdomain.ValueString l)) →
      ∃ st, Read get data resp = { Diagnostics := resp.Diagnostics, State := some st } ∧
        st.Domain = data.Domain ∧ st.Subdomain = data.Subdomain ∧
        st.ID = TFString.value (data.Domain.ValueString ++ ":" ++ data.Subdomain.ValueString) ∧
        st.IPs = (l.filter isIPv4 ++ l.filter (fun ip => !isIPv4 ip)).map TFString.value ∧
        (st.IPs.map TFString.ValueString).Perm l ∧
        ∀ x, x ∈ st.IPs.map TFString.ValueString ↔ x ∈ l := by
    intro get m1 inner l hserved hm
    refine ⟨_, read_served_set order horder m1 get inner l data resp hresp hserved hm, rfl, rfl,
      rfl, rfl, ?_, ?_⟩
    · simp only [map_valueString_value]
      exact List.filter_append_perm isIPv4 l
    · intro x
      simp only [map_valueString_value]
      exact mem_filter_split isIPv4 l x
  obtain ⟨hst1, inner1, hinner1⟩ := createGlue_of_not_nil m _ data.Subdomain.ValueString ips hmap
  have hmap2 : GoMap.get? (createGlue m data.Domain.ValueString data.Subdomain.ValueString
      ips).1.glueRecords data.Domain.ValueString ≠ some none := by
    rw [hinner1]
    simp
  obtain ⟨hst2, inner2, hinner2⟩ := createGlue_of_not_nil _ _ data.Subdomain.ValueString ips2
    hmap2
  refine ⟨hst1, ?_, hread get1 _ inner1 ips hget1 hinner1, hst2,
    hread get2 _ inner2 ips2 hget2 hinner2⟩
  rw [hget1, getGlueRecords_getGlue, hinner1]
  refine ⟨_, rfl, ?_⟩
  have hfind := find?_records_set order horder inner1 data.Domain.ValueString
    data.Subdomain.ValueString ips
  exact ⟨_, List.mem_of_find?_eq_some hfind, rfl, List.filter_append_perm isIPv4 ips⟩

/-- C6, amended, at `d = "example.com"`, `s = "ns1"`, `ips = ["192.168.1.1", "2001:db8::1"]`
and `ips2 = ["192.168.1.2"]`, from the empty server with the entries visited as stored:
`Read` gives the two addresses after the creation and `192.168.1.2` alone after the
update. -/
theorem create_update_read_witness :
    (∃ st,
        Read
            (fun dom =>
              GetGlueRecords dom
                (Except.ok
                  (getGlue id
                    (createGlue { nameservers := [], dnsRecords := [], glueRecords := [] }
                      "example.com" "ns1" ["192.168.1.1", "2001:db8::1"]).1 dom)))
            { ID := TFString.unknown, Domain := TFString.value "example.com",
              Subdomain := TFString.value "ns1", IPs := [] }
            { Diagnostics := [], State := none } =
          { Diagnostics := [], State := some st } ∧
        st.IPs = [TFString.value "192.168.1.1", TFString.value "2001:db8::1"]) ∧
      (∃ st,
        Read
            (fun dom =>
              GetGlueRecords dom
                (Except.ok
                  (getGlue id
                    (updateGlue
                      (createGlue { nameservers := [], dnsRecords := [], glueRecords := [] }
                        "example.com" "ns1" ["192.168.1.1", "2001:db8::1"]).1
                      "example.com" "ns1" ["192.168.1.2"]).1 dom)))
            { ID := TFString.unknown, Domain := TFString.value "example.com",
              Subdomain := TFString.value "ns1", IPs := [] }
            { Diagnostics := [], State := none } =
          { Diagnostics := [], State := some st } ∧
        st.IPs = [TFString.value "192.168.1.2"]) ∧
      Read
          (fun dom =>
            GetGlueRecords dom
              (Except.ok
                (getGlue id
                  (updateGlue
                    (createGlue { nameservers := [], dnsRecords := [], glueRecords := [] }
                      "example.com" "ns1" ["192.168.1.1", "2001:db8::1"]).1
                    "example.com" "ns1" ["192.168.1.2"]).1 dom)))
          { ID := TFString.unknown, Domain := TFString.value "example.com",
            Subdomain := TFString.value "ns1", IPs := [] }
          { Diagnostics := [], State := none } =
        { Diagnostics := []
          State := some
            { ID := TFString.value "example.com:ns1"
              Domain := TFString.value "example.com"
              Subdomain := TFString.value "ns1"
              IPs := [TFString.value "192.168.1.2"] } } := by
  have h := create_update_read id
    { nameservers := [], dnsRecords := [], glueRecords := [] } "example.com" "ns1"
    ["192.168.1.1", "2001:db8::1"] ["192.168.1.2"]
    { ID := TFString.unknown, Domain := TFString.value "example.com",
      Subdomain := TFString.value "ns1", IPs := [] }
    { Diagnostics := [], State := none }
    (fun dom =>
      GetGlueRecords dom
        (Except.ok
          (getGlue id
            (createGlue { nameservers := [], dnsRecords := [], glueRecords := [] }
              "example.com" "ns1" ["192.168.1.1", "2001:db8::1"]).1 dom)))
    (fun dom =>
      GetGlueRecords dom
        (Except.ok
          (getGlue id
            (updateGlue
              (createGlue { nameservers := [], dnsRecords := [], glueRecords := [] }
                "example.com" "ns1" ["192.168.1.1", "2001:db8::1"]).1
              "example.com" "ns1" ["192.168.1.2"]).1 dom)))
    (fun l => List.Perm.refl l) (by decide) rfl rfl rfl rfl rfl
  obtain ⟨_, _, ⟨st1, r1, _, _, _, i1, _⟩, _, ⟨st2, r2, _, _, _, i2, _⟩⟩ := h
  exact ⟨⟨st1, r1, i1.trans (by decide)⟩, ⟨st2, r2, i2.trans (by decide)⟩, by decide⟩

/-- C7: on the test server, `deleteGlue(d, s)` reports success in every state, leaves the
state as it was when the map of `d` has no entry `s` (or `d` has no map, or a nil one), and
afterwards no entry of the host list of `getGlue(d)` is named `s ++ "." ++ d`, whatever the
order of the visit; so a following `Read` for `(d, s)` whose `GetGlueRecords(d)` is answered
with the body the `getGlue` handler writes for `d` removes the resource without
diagnostic. -/
theorem delete_idempotent_effective (order : RangeOrder) (m : Server) (d s : String)
    (horder : order.Valid) :
    (deleteGlue m d s).2.Status = "SUCCESS" ∧
      statusResult (Except.ok (deleteGlue m d s).2) = none ∧
      ((∀ sub, GoMap.get? m.glueRecords d = some (some sub) → GoMap.get? sub s = none) →
        (deleteGlue m d s).1 = m) ∧
      deleteGlue (deleteGlue m d s).1 d s = deleteGlue m d s ∧
      (∀ h ∈ (getGlue order (deleteGlue m d s).1 d).Hosts,
        h.head? ≠ some (GoAny.string (s ++ "." ++ d))) ∧
      (∃ recs,
        GetGlueRecords d (Except.ok (getGlue order (deleteGlue m d s).1 d)) = Except.ok recs ∧
          ∀ r ∈ recs, r.Subdomain ≠ s ++ "." ++ d) ∧
      (∀ (get : String → Except ClientError (List GlueRecord))
        (data : GlueRecordResourceModel) (resp : Response),
        get d = GetGlueRecords d (Except.ok (getGlue order (deleteGlue m d s).1 d)) →
        data.Domain.ValueString = d → data.Subdomain.ValueString = s →
        HasError resp.Diagnostics = false →
        Read get data resp = { Diagnostics := resp.Diagnostics, State := none }) := by
  have hkeys : ∀ v, GoMap.get? m.glueRecords d = some (some v) →
      ∀ e ∈ order (GoMap.delete v s), e.1 ≠ s := by
    intro v _ e he
    rw [(horder _).mem_iff] at he
    exact ((GoMap.mem_delete v s e).1 he).2
  have hafter : ∀ v, GoMap.get? m.glueRecords d = some (some v) →
      GoMap.get? (deleteGlue m d s).1.glueRecords d = some (some (GoMap.delete v s)) := by
    intro v hv
    rw [get?_deleteGlue, hv]
    rfl
  have hafter_none : (∀ v, GoMap.get? m.glueRecords d ≠ some (some v)) →
      ∀ v, GoMap.get? (deleteGlue m d s).1.glueRecords d ≠ some (some v) := by
    intro hno v hv
    rw [get?_deleteGlue] at hv
    cases hg : GoMap.get? m.glueRecords d with
    | none => simp [hg] at hv
    | some x =>
      cases x with
      | none => simp [hg] at hv
      | some w => exact hno w hg
  refine ⟨rfl, statusResult_success, deleteGlue_absent m d s, ?_, ?_, ?_, ?_⟩
  · have hstate : (deleteGlue (deleteGlue m d s).1 d s).1 = (deleteGlue m d s).1 := by
      apply deleteGlue_absent
      intro sub hsub
      rw [get?_deleteGlue] at hsub
      cases hg : GoMap.get? m.glueRecords d with
      | none => simp [hg] at hsub
      | some x =>
        cases x with
        | none => simp [hg] at hsub
        | some v =>
          simp only [hg, Option.map_some', Option.some.injEq] at hsub
          rw [GoMap.get?_eq_none, ← hsub]
          intro e he
          exact ((GoMap.mem_delete v s e).1 he).2
    exact Prod.ext hstate rfl
  · intro h hh
    by_cases hex : ∃ v, GoMap.get? m.glueRecords d = some (some v)
    · obtain ⟨v, hv⟩ := hex
      rw [getGlue_hosts_some order _ d _ (hafter v hv), List.mem_map] at hh
      obtain ⟨e, he, rfl⟩ := hh
      have hne : e.1 ≠ s := hkeys v hv e he
      intro hhead
      simp only [hostEntry, List.head?_cons, Option.some.injEq, GoAny.string.injEq] at hhead
      exact hne ((formatHost_inj _ _ _).1 hhead)
    · have hno : ∀ v, GoMap.get? m.glueRecords d ≠ some (some v) :=
        fun v hv => hex ⟨v, hv⟩
      rw [getGlue_hosts_none order _ d (hafter_none hno)] at hh
      simp at hh
  · rw [getGlueRecords_getGlue]
    refine ⟨_, rfl, ?_⟩
    intro r hr
    by_cases hex : ∃ v, GoMap.get? m.glueRecords d = some (some v)
    · obtain ⟨v, hv⟩ := hex
      rw [hafter v hv] at hr
      simp only [List.mem_map] at hr
      obtain ⟨e, he, rfl⟩ := hr
      have hne : e.1 ≠ s := hkeys v hv e he
      intro hsub
      exact hne ((formatHost_inj _ _ _).1 hsub)
    · have hno : ∀ v, GoMap.get? m.glueRecords d ≠ some (some v) :=
        fun v hv => hex ⟨v, hv⟩
      have := hafter_none hno
      cases hg : GoMap.get? (deleteGlue m d s).1.glueRecords d with
      | none => simp [hg] at hr
      | some x =>
        cases x with
        | none => simp [hg] at hr
        | some w => exact absurd hg (this w)
  · intro get data resp hserved hd hs hresp
    subst hd hs
    exact read_served_deleted order horder _ get data resp hresp hserved
      ⟨GoMap.get? m.glueRecords data.Domain.ValueString, get?_deleteGlue m _ _⟩

/-- C7, at the server that holds `ns1` and `ns2` for `example.com`: after deleting
`("example.com", "ns1")` the host list has the entry of `ns2.example.com` only, and `Read`
for `("example.com", "ns1")` removes the resource. -/
theorem delete_idempotent_effective_witness :
    GetGlueRecords "example.com"
        (Except.ok
          (getGlue id
            (deleteGlue
              { nameservers := [], dnsRecords := []
                glueRecords :=
                  [("example.com",
                    some [("ns1", ["192.168.1.1"]), ("ns2", ["192.168.1.2"])])] }
              "example.com" "ns1").1 "example.com")) =
        Except.ok
          [{ Domain := "example.com", Subdomain := "ns2.example.com",
             IPs := ["192.168.1.2"] }] ∧
      Read
          (fun dom =>
            GetGlueRecords dom
              (Except.ok
                (getGlue id
                  (deleteGlue
                    { nameservers := [], dnsRecords := []
                      glueRecords :=
                        [("example.com",
                          some [("ns1", ["192.168.1.1"]), ("ns2", ["192.168.1.2"])])] }
                    "example.com" "ns1").1 dom)))
          { ID := TFString.value "example.com:ns1", Domain := TFString.value "example.com",
            Subdomain := TFString.value "ns1", IPs := [TFString.value "192.168.1.1"] }
          { Diagnostics := [], State := none } =
        { Diagnostics := [], State := none } :=
  ⟨rfl,
    (delete_idempotent_effective id
      { nameservers := [], dnsRecords := []
        glueRecords :=
          [("example.com", some [("ns1", ["192.168.1.1"]), ("ns2", ["192.168.1.2"])])] }
      "example.com" "ns1" (fun l => List.Perm.refl l)).2.2.2.2.2.2 _ _ _ rfl rfl rfl rfl⟩

/-- C8, refuted as stated: in the state that `SetGlueRecords("example.com", nil)` leaves,
the guards of `updateGlue` and `createGlue` find the key and the write into the nil map
panics, so neither handler reports success and no record is stored. -/
theorem updateGlue_idempotent_upsert_counterexample :
    updateGlue { nameservers := [], dnsRecords := [], glueRecords := [("example.com", none)] }
        "example.com" "ns1" ["192.168.1.2"] =
        ({ nameservers := [], dnsRecords := [], glueRecords := [("example.com", none)] },
          none) ∧
      createGlue { nameservers := [], dnsRecords := [], glueRecords := [("example.com", none)] }
        "example.com" "ns1" ["192.168.1.2"] =
        ({ nameservers := [], dnsRecords := [], glueRecords := [("example.com", none)] },
          none) := by
  decide

/-- C8, amended: on the test server, in every state, `updateGlue(d, s, ips)` applied twice
leaves the state (and writes the status) that it leaves applied once, and that state and
status are those of `createGlue(d, s, ips)` from the same state; when the map held for `d` is
not the nil map, both report success and the map of `d` then holds `ips` for `s`, whether or
not there was a record or a map for `d` before. -/
theorem updateGlue_idempotent_upsert (m : Server) (d s : String) (ips : List String) :
    updateGlue (updateGlue m d s ips).1 d s ips = updateGlue m d s ips ∧
      updateGlue m d s ips = createGlue m d s ips ∧
      (GoMap.get? m.glueRecords d ≠ some none →
        (updateGlue m d s ips).2 = some successStatus ∧
        (createGlue m d s ips).2 = some successStatus ∧
        ∃ sub, GoMap.get? (updateGlue m d s ips).1.glueRecords d = some (some sub) ∧
          GoMap.get? sub s = some ips) := by
  refine ⟨updateGlue_idem m d s ips, rfl, ?_⟩
  intro h
  obtain ⟨hst, inner, hinner⟩ := createGlue_of_not_nil m d s ips h
  exact ⟨hst, hst, _, hinner, GoMap.get?_set_self _ s ips⟩

/-- C8, amended, at the empty server and at a server that holds another address for `ns1`:
both updates succeed and leave `192.168.1.2` alone under `ns1`. -/
theorem updateGlue_idempotent_upsert_witness :
    updateGlue { nameservers := [], dnsRecords := [], glueRecords := [] }
        "example.com" "ns1" ["192.168.1.2"] =
        ({ nameservers := [], dnsRecords := []
           glueRecords := [("example.com", some [("ns1", ["192.168.1.2"])])] },
          some successStatus) ∧
      updateGlue
        { nameservers := [], dnsRecords := []
          glueRecords := [("example.com", some [("ns1", ["192.168.1.1", "2001:db8::1"])])] }
        "example.com" "ns1" ["192.168.1.2"] =
        ({ nameservers := [], dnsRecords := []
           glueRecords := [("example.com", some [("ns1", ["192.168.1.2"])])] },
          some successStatus) ∧
      (updateGlue { nameservers := [], dnsRecords := [], glueRecords := [] }
        "example.com" "ns1" ["192.168.1.2"]).2 = some successStatus :=
  ⟨by decide, by decide,
    ((updateGlue_idempotent_upsert { nameservers := [], dnsRecords := [], glueRecords := [] }
      "example.com" "ns1" ["192.168.1.2"]).2.2 (by decide)).1⟩

/-- C9, refuted as stated: the IPv6 literals `::ffff:c0a8:101` and `::ffff:192.168.1.1` (the
IPv4-mapped form of `192.168.1.1`) are not dotted-decimal IPv4 literals, yet the handler puts
them in the `v4` list. -/
theorem classification_counterexample :
    dottedDecimalIPv4 "::ffff:c0a8:101" = false ∧
      splitIPs isIPv4 ["::ffff:c0a8:101"] = (["::ffff:c0a8:101"], []) ∧
      dottedDecimalIPv4 "::ffff:192.168.1.1" = false ∧
      splitIPs isIPv4 ["::ffff:192.168.1.1"] = (["::ffff:192.168.1.1"], []) := by
  decide

/-- C9, amended: the handler puts an address in the `v4` list exactly when its
dotted-decimal IPv4 literal parse succeeds or it is an IPv6 literal, without zone, of an
IPv4-mapped address `::ffff:a.b.c.d`, and in the `v6` list otherwise: so every other IPv6
literal and every text that `net.ParseIP` rejects go to `v6`, and no address is rejected or
dropped, the two lists together being a rearrangement of the input. -/
theorem classification_amended (ips : List String) :
    splitIPs isIPv4 ips =
        (ips.filter (fun ip => dottedDecimalIPv4 ip || ipv4MappedLiteral ip),
          ips.filter (fun ip => !(dottedDecimalIPv4 ip || ipv4MappedLiteral ip))) ∧
      (∀ ip ∈ ips,
        (ip ∈ (splitIPs isIPv4 ips).1 ↔
          (dottedDecimalIPv4 ip = true ∨ ipv4MappedLiteral ip = true)) ∧
        (ip ∈ (splitIPs isIPv4 ips).2 ↔
          (dottedDecimalIPv4 ip = false ∧ ipv4MappedLiteral ip = false))) ∧
      (∀ ip ∈ ips, ParseAddr ip.data = none → ip ∈ (splitIPs isIPv4 ips).2) ∧
      (∀ ip ∈ ips, ∀ bytes zone, ParseAddr ip.data = some (Addr.v6 bytes zone) →
        (zone ≠ [] ∨ bytes.take 12 ≠ [0, 0, 0, 0, 0, 0, 0, 0, 0, 0, 255, 255]) →
        ip ∈ (splitIPs isIPv4 ips).2) ∧
      ((splitIPs isIPv4 ips).1 ++ (splitIPs isIPv4 ips).2).Perm ips := by
  have hiff : ∀ ip : String,
      isIPv4 ip = true ↔ (dottedDecimalIPv4 ip = true ∨ ipv4MappedLiteral ip = true) := by
    intro ip
    constructor
    · intro h
      cases hpa : ParseAddr ip.data with
      | none => simp [isIPv4, ParseIP, hpa, To4] at h
      | some a =>
        cases a with
        | v4 f =>
          left
          simp [dottedDecimalIPv4, parseAddr_v4 _ _ hpa]
        | v6 bytes zone =>
          right
          have hlen := parseIPv6_length _ _ _ (parseAddr_v6 _ _ _ hpa)
          by_cases hz : zone = []
          · subst hz
            match bytes, hlen with
            | [b0, b1, b2, b3, b4, b5, b6, b7, b8, b9, b10, b11, b12, b13, b14, b15], _ =>
              simp [isIPv4, ParseIP, hpa, To4, Addr.Zone, Addr.As16] at h
              simp [ipv4MappedLiteral, hpa, h]
          · simp [isIPv4, ParseIP, hpa, To4, Addr.Zone, hz] at h
    · rintro (h | h)
      · exact isIPv4_of_dottedDecimal ip h
      · unfold ipv4MappedLiteral at h
        split at h
        · rename_i bytes zone hpa
          simp only [decide_eq_true_eq] at h
          obtain ⟨hz, hlen, htake⟩ := h
          subst hz
          match bytes, hlen with
          | [b0, b1, b2, b3, b4, b5, b6, b7, b8, b9, b10, b11, b12, b13, b14, b15], _ =>
            simp at htake
            simp [isIPv4, ParseIP, hpa, To4, Addr.Zone, Addr.As16, htake]
        · exact absurd h (by simp)
  have hfun : isIPv4 = fun ip => dottedDecimalIPv4 ip || ipv4MappedLiteral ip := by
    funext ip
    have h := hiff ip
    cases h1 : isIPv4 ip <;> cases h2 : dottedDecimalIPv4 ip <;>
      cases h3 : ipv4MappedLiteral ip <;> simp_all
  have hsplit := splitIPs_eq isIPv4 ips
  have hv6 : ∀ ip ∈ ips, ipv4MappedLiteral ip = false → dottedDecimalIPv4 ip = false →
      ip ∈ (splitIPs isIPv4 ips).2 := by
    intro ip hip h1 h2
    rw [hsplit, hfun]
    simp [List.mem_filter, hip, h1, h2]
  have hdd : ∀ ip bytes zone, ParseAddr ip.data = some (Addr.v6 bytes zone) →
      dottedDecimalIPv4 ip = false := by
    intro ip bytes zone hpa
    cases hd : dottedDecimalIPv4 ip with
    | false => rfl
    | true =>
      unfold dottedDecimalIPv4 at hd
      cases hr : parseIPv4Fields ip.data with
      | none => simp [hr] at hd
      | some r =>
        have := (parseAddr_of_parseIPv4Fields ip.data r hr).1
        rw [hpa] at this
        simp at this
  refine ⟨?_, ?_, ?_, ?_, ?_⟩
  · rw [hsplit, hfun]
  · intro ip hip
    rw [hsplit, hfun]
    simp [List.mem_filter, hip]
  · intro ip hip hpa
    apply hv6 ip hip
    · simp [ipv4MappedLiteral, hpa]
    · cases hd : dottedDecimalIPv4 ip with
      | false => rfl
      | true =>
        unfold dottedDecimalIPv4 at hd
        cases hr : parseIPv4Fields ip.data with
        | none => simp [hr] at hd
        | some r =>
          have := (parseAddr_of_parseIPv4Fields ip.data r hr).1
          rw [hpa] at this
          simp at this
  · intro ip hip bytes zone hpa hnot
    apply hv6 ip hip
    · rcases hnot with h | h <;> simp [ipv4MappedLiteral, hpa, h]
    · exact hdd ip bytes zone hpa
  · rw [hsplit]
    exact List.filter_append_perm isIPv4 ips

/-- C9, amended, at a list of literals: the dotted-decimal literal and the two IPv4-mapped
IPv6 literals go to `v4`; the other IPv6 literals, the literal with a zone, the truncated
literal and the text that is no address go to `v6`, as the test of the handler evaluates on
them. -/
theorem classification_amended_witness :
    splitIPs isIPv4
        ["2001:db8::1", "192.168.1.1", "::ffff:c0a8:101", "not-an-ip", "::1", "1.2.3",
          "::ffff:192.168.1.1", "fe80::1%eth0", "::"] =
        (["192.168.1.1", "::ffff:c0a8:101", "::ffff:192.168.1.1"],
          ["2001:db8::1", "not-an-ip", "::1", "1.2.3", "fe80::1%eth0", "::"]) ∧
      isIPv4 "2001:db8::1" = false ∧ isIPv4 "::1" = false ∧ isIPv4 "fe80::1%eth0" = false ∧
      isIPv4 "not-an-ip" = false ∧ isIPv4 "192.168.1.1" = true :=
  ⟨(classification_amended
      ["2001:db8::1", "192.168.1.1", "::ffff:c0a8:101", "not-an-ip", "::1", "1.2.3",
        "::ffff:192.168.1.1", "fe80::1%eth0", "::"]).1.trans (by decide),
    by decide, by decide, by decide, by decide, by decide⟩

/-- C10: for a plan with domain `d` and subdomain `s`, `Create` and `Update` store the
identifier `d ++ ":" ++ s`. When `d` and `s` are non-empty and free of `:`, `ImportState` accepts that
identifier and sets `domain = d`, `subdomain = s` and the same `id`, and a `Read` of the
imported state that finds the record gives again `domain = d`, `subdomain = s` and that `id`,
as in the created state. When `d` or `s` is empty or has a `:`, `ImportState` rejects the
identifier `Create` stores. -/
theorem import_agrees_with_create (d s : String) (plan : GlueRecordResourceModel)
    (resp : Response) (hd : plan.Domain = TFString.value d)
    (hs : plan.Subdomain = TFString.value s) (hresp : HasError resp.Diagnostics = false) :
    Create (fun _ _ _ => none) plan resp =
        { Diagnostics := resp.Diagnostics
          State := some { plan with ID := TFString.value (d ++ ":" ++ s) } } ∧
      Update (fun _ _ _ => none) plan resp =
        { Diagnostics := resp.Diagnostics
          State := some { plan with ID := TFString.value (d ++ ":" ++ s) } } ∧
      (d ≠ "" → s ≠ "" → ':' ∉ d.data → ':' ∉ s.data →
        ImportState (d ++ ":" ++ s) resp =
            { Diagnostics := resp.Diagnostics
              State := some { resp.State.getD nullModel with
                ID := TFString.value (d ++ ":" ++ s)
                Domain := TFString.value d
                Subdomain := TFString.value s } } ∧
          ∀ (get : String → Except ClientError (List GlueRecord)) (records : List GlueRecord)
            (r : GlueRecord) (imported : GlueRecordResourceModel),
            (ImportState (d ++ ":" ++ s) resp).State = some imported →
            get d = Except.ok records →
            records.find? (fun x => x.Subdomain = s ++ "." ++ d) = some r →
            Read get imported resp =
              { Diagnostics := resp.Diagnostics
                State := some
                  { ID := TFString.value (d ++ ":" ++ s)
                    Domain := plan.Domain
                    Subdomain := plan.Subdomain
                    IPs := r.IPs.map TFString.value } }) ∧
      ((d = "" ∨ s = "" ∨ ':' ∈ d.data ∨ ':' ∈ s.data) →
        ImportState (d ++ ":" ++ s) resp =
          { Diagnostics :=
              resp.Diagnostics ++
                [{ severity := Severity.error
                   summary := "Unexpected Import Identifier"
                   detail := "Expected import identifier with format: domain:subdomain. Got: %q"
                   detailArgs := [d ++ ":" ++ s] }]
            State := resp.State }) := by
  refine ⟨?_, ?_, ?_, ?_⟩
  · simp [Create, hresp, hd, hs, TFString.ValueString, formatID, StringValue]
  · simp [Update, hresp, hd, hs, TFString.ValueString, formatID, StringValue]
  · intro nd ns cd cs
    have himp : ImportState (d ++ ":" ++ s) resp =
        { Diagnostics := resp.Diagnostics
          State := some { resp.State.getD nullModel with
            ID := TFString.value (d ++ ":" ++ s)
            Domain := TFString.value d
            Subdomain := TFString.value s } } := by
      have hsplit : Split (d ++ ":" ++ s) ':' = [d, s] := by
        have e : (d ++ ":" ++ s).data = d.data ++ ':' :: s.data := by
          simp [String.data_append]
        simp [Split, e, splitChars_append_sep ':' s.data d.data cd,
          splitChars_of_not_mem ':' s.data cs]
      exact importState_of_pair _ d s resp hsplit nd ns
    refine ⟨himp, ?_⟩
    intro get records r imported hstate hget hfind
    rw [himp] at hstate
    simp only [Option.some.injEq] at hstate
    subst hstate
    rw [hd, hs]
    exact read_found get _ resp records r hresp hget hfind
  · intro hbad
    apply importState_of_not_pair
    intro hp
    obtain ⟨d1, sub1, hshape⟩ := (split_pair_iff (d ++ ":" ++ s)).2 hp
    obtain ⟨rfl, rfl⟩ := importIDShape_unique d s d1 sub1 hshape
    obtain ⟨n1, n2, n3, n4, _⟩ := hshape
    rcases hbad with h | h | h | h
    · exact n1 h
    · exact n2 h
    · exact n3 h
    · exact n4 h

/-- C10, at `d = "example.com"` and `s = "ns1"`: the identifier `Create` stores is imported
and read back with the same `domain`, `subdomain` and `id`. -/
theorem import_agrees_with_create_witness :
    Create (fun _ _ _ => none)
        { ID := TFString.unknown, Domain := TFString.value "example.com",
          Subdomain := TFString.value "ns1", IPs := [TFString.value "192.168.1.1"] }
        { Diagnostics := [], State := none } =
      { Diagnostics := []
        State := some
          { ID := TFString.value "example.com:ns1", Domain := TFString.value "example.com",
            Subdomain := TFString.value "ns1", IPs := [TFString.value "192.168.1.1"] } } ∧
    ImportState "example.com:ns1" { Diagnostics := [], State := none } =
      { Diagnostics := []
        State := some
          { ID := TFString.value "example.com:ns1", Domain := TFString.value "example.com",
            Subdomain := TFString.value "ns1", IPs := [] } } := by
  have h := import_agrees_with_create "example.com" "ns1"
    { ID := TFString.unknown, Domain := TFString.value "example.com",
      Subdomain := TFString.value "ns1", IPs := [TFString.value "192.168.1.1"] }
    { Diagnostics := [], State := none } rfl rfl rfl
  exact ⟨h.1, (h.2.2.1 (by decide) (by decide) (by decide) (by decide)).1⟩

end Porkbun
